import Mathlib

/-!
Verification development for a small Redis-compatible server written in Rust
(sources: src/parser.rs, src/server.rs, src/main.rs).

Shallow-embedding conventions used throughout:

* A byte is a `Nat` (< 256 in practice); a byte buffer (`BytesMut`, `&[u8]`,
  and Rust `String` contents alike) is a `List Nat` called `Buf`.
  `String::from_utf8_lossy` is modelled as the identity on the byte list,
  which is exact whenever the bytes are valid UTF-8 (in particular ASCII);
  every concrete input used below is ASCII.
* `str::to_lowercase` is modelled as ASCII lowercasing (exact on ASCII).
* `std::time::Instant` is modelled as a `Nat` (a point on a monotonic clock,
  in milliseconds); `std::time::Duration` is modelled as a `Nat` number of
  milliseconds.  `Duration::from_millis m` is `m`, `Duration::from_secs s` is
  `1000 * s`; this mapping preserves equality of durations.
* Rust panics (failed `unwrap`/`expect`, `assert!`, `unimplemented!`, index
  out of bounds) are modelled by an explicit `panic` outcome.
* The `i64 as usize` cast is modelled as reduction modulo 2^64.
-/

/-- A byte buffer: the model of `BytesMut` / `&[u8]` / Rust `String` bytes. -/
abbrev Buf := List Nat

/-- The bytes (Unicode code points, all ASCII below) of a Lean string literal. -/
def bytesOf (s : String) : Buf := s.toList.map Char.toNat

/-- ASCII lowercasing, the model of `str::to_lowercase` on ASCII data. -/
def lower (l : Buf) : Buf := l.map (fun b => if 65 ≤ b ∧ b ≤ 90 then b + 32 else b)

/-- CR LF, the RESP frame terminator. -/
def crlf : Buf := [13, 10]

/-- Decimal digits of `n`, most significant first, via an explicit fuel
argument (`fuel ≥ n` always suffices; see `decVal_natToDecF`). -/
def natToDecF : Nat → Nat → Buf
  | 0, n => [48 + n % 10]
  | fuel + 1, n => if n < 10 then [48 + n] else natToDecF fuel (n / 10) ++ [48 + n % 10]

/-- Decimal ASCII rendering of a `Nat`: the model of `format!("{}", n)` for
unsigned integers. -/
def natToDec (n : Nat) : Buf := natToDecF n n

/-- Decimal ASCII rendering of an `Int`: the model of `format!("{}", i)` for
`i64` values. -/
def intToDec (i : Int) : Buf :=
  if i < 0 then 45 :: natToDec (-i).toNat else natToDec i.toNat

/-- Numeric value of a digit string (each element is assumed to be an ASCII
digit byte). -/
def decVal (l : Buf) : Nat := l.foldl (fun acc d => 10 * acc + (d - 48)) 0

/-- Whether a byte is an ASCII decimal digit. -/
def isDigitB (b : Nat) : Bool := decide (48 ≤ b) && decide (b ≤ 57)

/-- Parse a nonempty all-digit byte string into a `Nat`; `none` otherwise. -/
def parseDigits (l : Buf) : Option Nat :=
  if l ≠ [] ∧ l.all isDigitB then some (decVal l) else none

/-- Largest `i64` value. -/
def i64max : Nat := 2 ^ 63 - 1

/-- Model of `str::parse::<i64>`: an optional sign followed by a nonempty
digit string, rejecting values outside the `i64` range. -/
def parseI64 (l : Buf) : Option Int :=
  match l with
  | [] => none
  | c :: rest =>
    if c = 43 then
      (parseDigits rest).bind fun n => if n ≤ i64max then some (Int.ofNat n) else none
    else if c = 45 then
      (parseDigits rest).bind fun n => if n ≤ 2 ^ 63 then some (-(Int.ofNat n)) else none
    else
      (parseDigits (c :: rest)).bind fun n => if n ≤ i64max then some (Int.ofNat n) else none

/-- Model of `str::parse::<u64>`: an optional `+` followed by a nonempty digit
string, rejecting values outside the `u64` range. -/
def parseU64 (l : Buf) : Option Nat :=
  match l with
  | [] => none
  | c :: rest =>
    if c = 43 then (parseDigits rest).bind fun n => if n ≤ 2 ^ 64 - 1 then some n else none
    else (parseDigits (c :: rest)).bind fun n => if n ≤ 2 ^ 64 - 1 then some n else none

/-- Model of the Rust cast `i64 as usize` on a 64-bit target: two's-complement
reduction modulo 2^64. -/
def asUsize (i : Int) : Nat := (i % (2 ^ 64 : Int)).toNat

/-- Model of the slice `&src[a..b]` (used only at indices that are in range in
the source, where Rust slicing does not panic). -/
def sliceB (src : Buf) (a b : Nat) : Buf := (src.take b).drop a

theorem decVal_append_digit (l : Buf) (d : Nat) :
    decVal (l ++ [d]) = 10 * decVal l + (d - 48) := by
  simp [decVal, List.foldl_append]

theorem decVal_natToDecF : ∀ fuel n, n ≤ fuel → decVal (natToDecF fuel n) = n := by
  intro fuel
  induction fuel with
  | zero =>
    intro n hn
    interval_cases n
    simp [natToDecF, decVal]
  | succ f ih =>
    intro n hn
    by_cases h : n < 10
    · simp [natToDecF, h, decVal]
    · have hdiv : n / 10 ≤ f := by omega
      rw [natToDecF, if_neg h, decVal_append_digit, ih _ hdiv]
      omega

theorem decVal_natToDec (n : Nat) : decVal (natToDec n) = n :=
  decVal_natToDecF n n (Nat.le_refl n)

theorem natToDecF_digits : ∀ fuel n, (natToDecF fuel n).all isDigitB = true := by
  intro fuel
  induction fuel with
  | zero =>
    intro n
    simp [natToDecF, isDigitB]
    omega
  | succ f ih =>
    intro n
    by_cases h : n < 10
    · simp [natToDecF, h, isDigitB]
      omega
    · rw [natToDecF, if_neg h]
      simp only [List.all_append]
      rw [ih]
      simp [isDigitB]
      omega

theorem natToDecF_ne_nil : ∀ fuel n, natToDecF fuel n ≠ [] := by
  intro fuel n
  cases fuel with
  | zero => simp [natToDecF]
  | succ f =>
    by_cases h : n < 10
    · simp [natToDecF, h]
    · rw [natToDecF, if_neg h]
      simp

theorem parseDigits_natToDec (n : Nat) : parseDigits (natToDec n) = some n := by
  rw [parseDigits, if_pos ⟨natToDecF_ne_nil n n, natToDecF_digits n n⟩, decVal_natToDec]

theorem natToDec_head_digit (n : Nat) :
    ∀ d rest, natToDec n = d :: rest → 48 ≤ d ∧ d ≤ 57 := by
  intro d rest h
  have hall := natToDecF_digits n n
  rw [natToDec] at h
  rw [h] at hall
  simp [isDigitB] at hall
  omega

theorem parseU64_natToDec (n : Nat) (hn : n ≤ 2 ^ 64 - 1) :
    parseU64 (natToDec n) = some n := by
  rcases hd : natToDec n with _ | ⟨d, rest⟩
  · exact absurd hd (natToDecF_ne_nil n n)
  · have hdig := natToDec_head_digit n d rest hd
    rw [parseU64]
    rw [if_neg (by omega), ← hd, parseDigits_natToDec]
    simp
    omega

theorem parseI64_natToDec (n : Nat) (hn : n ≤ i64max) :
    parseI64 (natToDec n) = some (Int.ofNat n) := by
  rcases hd : natToDec n with _ | ⟨d, rest⟩
  · exact absurd hd (natToDecF_ne_nil n n)
  · have hdig := natToDec_head_digit n d rest hd
    rw [parseI64]
    rw [if_neg (by omega), if_neg (by omega), ← hd, parseDigits_natToDec]
    simp only [Option.some_bind]
    rw [if_pos (by simp [i64max] at hn ⊢; omega)]

theorem asUsize_ofNat (n : Nat) (hn : n < 2 ^ 64) : asUsize (Int.ofNat n) = n := by
  have h1 : (Int.ofNat n) % (2 ^ 64 : Int) = Int.ofNat n := by
    apply Int.emod_eq_of_lt
    · exact Int.ofNat_nonneg n
    · have h2 : Int.ofNat n < Int.ofNat (2 ^ 64) := Int.ofNat_lt.mpr hn
      simpa using h2
  rw [asUsize, h1]
  simp

/-!
RESP parser data model (src/parser.rs).  Parse results carry the new offset;
Rust's `Result`-or-panic behaviour is captured by `Outcome`.
-/

/-- Mirror of `struct BufSplit(usize, usize)`: a `(start, end)` view into a
byte buffer. -/
structure BufSplit where
  s : Nat
  e : Nat
  deriving Repr, DecidableEq

/-- Mirror of `BufSplit::len`. -/
def BufSplit.len (w : BufSplit) : Nat := w.e - w.s

/-- Mirror of `enum RedisBufSplit`: a zero-copy RESP value over a buffer. -/
inductive RedisBufSplit where
  | String (w : BufSplit)
  | Error (w : BufSplit)
  | Int (i : Int)
  | Array (l : List RedisBufSplit)
  | NullArray
  | NullBulkString
  deriving Repr

/-- Mirror of `enum RESPError` (the `IOError` variant carries no data here as
no modelled path constructs it). -/
inductive RESPError where
  | UnexpectedEnd
  | UnknownStartingByte (b : Nat)
  | IOError
  | InvalidArgument (s : Buf)
  | IntParseFailure (s : Buf)
  | BadBulkStringSize (i : Int)
  | BadArraySize (i : Int)
  deriving Repr, DecidableEq

/-- Result of a fallible parse/execution step: `ok`, a returned `RESPError`,
or a Rust panic (failed `unwrap`/`expect`, `assert!`, `unimplemented!`,
out-of-bounds index). -/
inductive Outcome (α : Type) where
  | ok (a : α)
  | err (e : RESPError)
  | panic
  deriving Repr

/-- Map over the `ok` payload of an `Outcome`. -/
def Outcome.map {α β : Type} (f : α → β) : Outcome α → Outcome β
  | .ok a => .ok (f a)
  | .err e => .err e
  | .panic => .panic

/-- Mirror of `BufSplit::to_string` (via `String::from_utf8_lossy`, modelled
as the byte slice itself). -/
def BufSplit.to_string (w : BufSplit) (src : Buf) : Buf := sliceB src w.s w.e

mutual

/-- Mirror of `RedisBufSplit::to_string`: human-readable rendering. -/
def RedisBufSplit.to_string (v : RedisBufSplit) (src : Buf) : Buf :=
  match v with
  | .String word => word.to_string src
  | .Error word => word.to_string src
  | .Int i => intToDec i
  | .Array words => [91] ++ RedisBufSplit.toStringJoin words src ++ [93]
  | .NullArray => bytesOf "[]"
  | .NullBulkString => bytesOf "null"

/-- Renders the elements of an array joined by commas: the model of the
`for (i, word) in …enumerate { if i > 0 { push(',') } }` loop of
`RedisBufSplit::to_string`. -/
def RedisBufSplit.toStringJoin (l : List RedisBufSplit) (src : Buf) : Buf :=
  match l with
  | [] => []
  | [x] => RedisBufSplit.to_string x src
  | x :: y :: xs =>
    RedisBufSplit.to_string x src ++ [44] ++ RedisBufSplit.toStringJoin (y :: xs) src

end

mutual

/-- Mirror of `RedisBufSplit::to_resp`: the RESP encoder.  Note the source's
`Array` arm pushes an extra `\r\n` separator before every element after the
first, on top of each element's own encoding. -/
def RedisBufSplit.to_resp (v : RedisBufSplit) (src : Buf) : Buf :=
  match v with
  | .String word => [36] ++ natToDec word.len ++ crlf ++ word.to_string src ++ crlf
  | .Error word => [45] ++ word.to_string src ++ crlf
  | .Int i => [58] ++ intToDec i ++ crlf
  | .Array words => [42] ++ natToDec words.length ++ crlf ++ RedisBufSplit.toRespJoin words src
  | .NullArray => bytesOf "*-1\r\n"
  | .NullBulkString => bytesOf "$-1\r\n"

/-- Encodes the elements of an array with the source's extra `\r\n` separator
pushed before every element after the first. -/
def RedisBufSplit.toRespJoin (l : List RedisBufSplit) (src : Buf) : Buf :=
  match l with
  | [] => []
  | [x] => RedisBufSplit.to_resp x src
  | x :: y :: xs =>
    RedisBufSplit.to_resp x src ++ crlf ++ RedisBufSplit.toRespJoin (y :: xs) src

end

/-- Distance from position `i` to the first CR (byte 13) at or after `i`
(length of the remainder when there is none): the scanning loop of
`Parser::token`. -/
def crScan : Buf → Nat
  | [] => 0
  | b :: rest => if b = 13 then 0 else crScan rest + 1

/-- Mirror of the loop `while end < len && src[end] != CR { end += 1 }` in
`Parser::token`: the position where the scan starting at `i` stops. -/
def tokenEnd (src : Buf) (i : Nat) : Nat := i + crScan (src.drop i)

/-- Mirror of `Parser::token`: scan for CR from `index`; on success return
the position two past the CR together with the `BufSplit` of the scanned
word, and `None` when the scan ran off the end of the buffer. -/
def Parser.token (src : Buf) (index : Nat) : Option (Nat × BufSplit) :=
  let e := tokenEnd src index
  if e = src.length then none else some (e + 2, ⟨index, e⟩)

/-- Mirror of `Parser::parse_int`: requires the leading byte to be `$`, `:`
or `*`, panics (`unwrap`) when no CR terminates the token, and parses the
bytes after the leading byte as an `i64`. -/
def Parser.parse_int (src : Buf) (index : Nat) : Outcome (Nat × Int) :=
  match src[index]? with
  | none => .panic
  | some b =>
    if b = 36 ∨ b = 58 ∨ b = 42 then
      match Parser.token src index with
      | none => .panic
      | some (_, split) =>
        let numBytes := sliceB src (split.s + 1) split.e
        match parseI64 numBytes with
        | none => .err (.IntParseFailure numBytes)
        | some v => .ok (split.e + 2, v)
    else .err (.UnknownStartingByte b)

/-- Mirror of `Parser::parse_bulk_string`: asserts the `$` lead byte, parses
the size line, and fails with `UnexpectedEnd` when the payload runs past the
end of the buffer.  The `i64 → usize` size cast follows the source. -/
def Parser.parse_bulk_string (src : Buf) (index : Nat) : Outcome (Nat × RedisBufSplit) :=
  match src[index]? with
  | none => .panic
  | some b =>
    if b = 36 then
      match Parser.parse_int src index with
      | .panic => .panic
      | .err e => .err e
      | .ok (i, v) =>
        let size := asUsize v
        let start := i
        let e := i + size
        if e > src.length then .err .UnexpectedEnd
        else .ok (e + 2, .String ⟨start, e⟩)
    else .panic

/-- The element loop of `Parser::parse_array`: `size` elements, each of which
must be a bulk string (any other lead byte is `unimplemented!`, i.e. a panic,
as is a bulk-string parse failure via `expect`). -/
def Parser.parseArrayLoop (src : Buf) : Nat → Nat → List RedisBufSplit →
    Outcome (Nat × List RedisBufSplit)
  | 0, pos, acc => .ok (pos, acc)
  | count + 1, pos, acc =>
    match src[pos]? with
    | none => .panic
    | some b =>
      if b = 36 then
        match Parser.parse_bulk_string src pos with
        | .ok (newPos, word) => Parser.parseArrayLoop src count newPos (acc ++ [word])
        | _ => .panic
      else .panic

/-- Mirror of `Parser::parse_array`: asserts the `*` lead byte, parses the
element count, then parses that many bulk-string elements. -/
def Parser.parse_array (src : Buf) (index : Nat) : Outcome (Nat × RedisBufSplit) :=
  match src[index]? with
  | none => .panic
  | some b =>
    if b = 42 then
      match Parser.parse_int src index with
      | .panic => .panic
      | .err e => .err e
      | .ok (i, v) =>
        match Parser.parseArrayLoop src (asUsize v) i [] with
        | .ok (pos, tokens) => .ok (pos, .Array tokens)
        | .err e => .err e
        | .panic => .panic
    else .panic

/-- Mirror of `Parser::simple_string`: skip the lead `+` byte and scan one
token; `ok none` is the source's `Ok(None)` incomplete outcome. -/
def Parser.simple_string (buf : Buf) (pos : Nat) : Outcome (Option (Nat × RedisBufSplit)) :=
  match Parser.token buf (pos + 1) with
  | some (newPos, word) => .ok (some (newPos, .String word))
  | none => .ok none

example : bytesOf "ab*" = [97, 98, 42] := by decide

example : Parser.token (bytesOf "*2\r\n$3\r\nSET\r\n") 0 = some (4, ⟨0, 2⟩) := by decide

example :
    Parser.parse_int (bytesOf "*2\r\n$10\r\nfoobarabcd\r\n") 4 =
      .ok (9, Int.ofNat 10) := by rfl

example :
    Parser.parse_bulk_string (bytesOf "$3\r\nSET\r\n") 0 =
      .ok (9, .String ⟨4, 7⟩) := by rfl

example :
    Parser.parse_array (bytesOf "*2\r\n$3\r\nSET\r\n$3\r\nfoo\r\n") 0 =
      .ok (22, .Array [.String ⟨8, 11⟩, .String ⟨17, 20⟩]) := by rfl

/-!
Characterization lemmas for the scanner and parse routines: one equation per
control-flow branch.  Everything later (shift invariance, progress of the
command loops, and the codec round-trip results) is derived from these.
-/

theorem crScan_no_cr (l : Buf) (h : ∀ b ∈ l, b ≠ 13) : crScan l = l.length := by
  induction l with
  | nil => rfl
  | cons b rest ih =>
    have hb : b ≠ 13 := h b (List.mem_cons_self b rest)
    rw [crScan, if_neg hb, ih (fun x hx => h x (List.mem_cons_of_mem b hx))]
    rfl

theorem crScan_append_cr (l r : Buf) (h : ∀ b ∈ l, b ≠ 13) :
    crScan (l ++ 13 :: r) = l.length := by
  induction l with
  | nil => simp [crScan]
  | cons b rest ih =>
    have hb : b ≠ 13 := h b (List.mem_cons_self b rest)
    rw [List.cons_append, crScan, if_neg hb,
      ih (fun x hx => h x (List.mem_cons_of_mem b hx))]
    rfl

theorem tokenEnd_ge (src : Buf) (i : Nat) : i ≤ tokenEnd src i := by
  rw [tokenEnd]
  omega

theorem tokenEnd_shift (p l : Buf) (i : Nat) :
    tokenEnd (p ++ l) (p.length + i) = p.length + tokenEnd l i := by
  rw [tokenEnd, tokenEnd, List.drop_append]
  omega

theorem getElem?_shift (p l : Buf) (i : Nat) : (p ++ l)[p.length + i]? = l[i]? := by
  rw [List.getElem?_append_right (by omega)]
  congr 1
  omega

theorem sliceB_shift (p l : Buf) (a b : Nat) :
    sliceB (p ++ l) (p.length + a) (p.length + b) = sliceB l a b := by
  rw [sliceB, sliceB, List.take_append, List.drop_append]

theorem token_eq_none (src : Buf) (i : Nat) (h : tokenEnd src i = src.length) :
    Parser.token src i = none := by
  rw [Parser.token]
  simp only [if_pos h]

theorem token_eq_some (src : Buf) (i : Nat) (h : tokenEnd src i ≠ src.length) :
    Parser.token src i = some (tokenEnd src i + 2, ⟨i, tokenEnd src i⟩) := by
  rw [Parser.token]
  simp only [if_neg h]

theorem parse_int_oob (src : Buf) (i : Nat) (hb : src[i]? = none) :
    Parser.parse_int src i = .panic := by
  rw [Parser.parse_int, hb]

theorem parse_int_badlead (src : Buf) (i b : Nat) (hb : src[i]? = some b)
    (h3 : ¬(b = 36 ∨ b = 58 ∨ b = 42)) :
    Parser.parse_int src i = .err (.UnknownStartingByte b) := by
  rw [Parser.parse_int, hb]
  simp only [if_neg h3]

theorem parse_int_noterm (src : Buf) (i b : Nat) (hb : src[i]? = some b)
    (h3 : b = 36 ∨ b = 58 ∨ b = 42) (ht : tokenEnd src i = src.length) :
    Parser.parse_int src i = .panic := by
  rw [Parser.parse_int, hb]
  simp only [if_pos h3, token_eq_none src i ht]

theorem parse_int_badnum (src : Buf) (i b : Nat) (hb : src[i]? = some b)
    (h3 : b = 36 ∨ b = 58 ∨ b = 42) (ht : tokenEnd src i ≠ src.length)
    (hp : parseI64 (sliceB src (i + 1) (tokenEnd src i)) = none) :
    Parser.parse_int src i = .err (.IntParseFailure (sliceB src (i + 1) (tokenEnd src i))) := by
  rw [Parser.parse_int, hb]
  simp only [if_pos h3, token_eq_some src i ht, hp]

theorem parse_int_ok (src : Buf) (i b : Nat) (v : Int) (hb : src[i]? = some b)
    (h3 : b = 36 ∨ b = 58 ∨ b = 42) (ht : tokenEnd src i ≠ src.length)
    (hp : parseI64 (sliceB src (i + 1) (tokenEnd src i)) = some v) :
    Parser.parse_int src i = .ok (tokenEnd src i + 2, v) := by
  rw [Parser.parse_int, hb]
  simp only [if_pos h3, token_eq_some src i ht, hp]

theorem parse_int_inv (src : Buf) (i j : Nat) (v : Int)
    (h : Parser.parse_int src i = .ok (j, v)) :
    ∃ b, src[i]? = some b ∧ (b = 36 ∨ b = 58 ∨ b = 42) ∧
      tokenEnd src i ≠ src.length ∧
      parseI64 (sliceB src (i + 1) (tokenEnd src i)) = some v ∧
      j = tokenEnd src i + 2 := by
  cases hb : src[i]? with
  | none => rw [parse_int_oob src i hb] at h; exact absurd h (by simp)
  | some b =>
    by_cases h3 : b = 36 ∨ b = 58 ∨ b = 42
    · by_cases ht : tokenEnd src i = src.length
      · rw [parse_int_noterm src i b hb h3 ht] at h
        exact absurd h (by simp)
      · cases hp : parseI64 (sliceB src (i + 1) (tokenEnd src i)) with
        | none =>
          rw [parse_int_badnum src i b hb h3 ht hp] at h
          exact absurd h (by simp)
        | some v0 =>
          rw [parse_int_ok src i b v0 hb h3 ht hp] at h
          simp at h
          refine ⟨b, rfl, h3, ht, ?_, ?_⟩
          · rw [h.2]
          · omega
    · rw [parse_int_badlead src i b hb h3] at h
      exact absurd h (by simp)

theorem parse_int_progress (src : Buf) (i j : Nat) (v : Int)
    (h : Parser.parse_int src i = .ok (j, v)) : i + 2 ≤ j := by
  obtain ⟨b, -, -, -, -, hj⟩ := parse_int_inv src i j v h
  have := tokenEnd_ge src i
  omega

theorem parse_int_shift_ok (p l : Buf) (i j : Nat) (v : Int)
    (h : Parser.parse_int l i = .ok (j, v)) :
    Parser.parse_int (p ++ l) (p.length + i) = .ok (p.length + j, v) := by
  obtain ⟨b, hb, h3, ht, hp, hj⟩ := parse_int_inv l i j v h
  have hb' : (p ++ l)[p.length + i]? = some b := by rw [getElem?_shift, hb]
  have hte := tokenEnd_shift p l i
  have ht' : tokenEnd (p ++ l) (p.length + i) ≠ (p ++ l).length := by
    rw [hte, List.length_append]
    omega
  have hp' : parseI64 (sliceB (p ++ l) (p.length + i + 1) (tokenEnd (p ++ l) (p.length + i)))
      = some v := by
    rw [hte]
    have := sliceB_shift p l (i + 1) (tokenEnd l i)
    rw [show p.length + i + 1 = p.length + (i + 1) by omega, this, hp]
  have := parse_int_ok (p ++ l) (p.length + i) b v hb' h3 ht' hp'
  rw [this, hte, hj]
  congr 2

theorem parse_bulk_oob (src : Buf) (i : Nat) (hb : src[i]? = none) :
    Parser.parse_bulk_string src i = .panic := by
  rw [Parser.parse_bulk_string, hb]

theorem parse_bulk_notdollar (src : Buf) (i b : Nat) (hb : src[i]? = some b)
    (h36 : b ≠ 36) : Parser.parse_bulk_string src i = .panic := by
  rw [Parser.parse_bulk_string, hb]
  simp only [if_neg h36]

theorem parse_bulk_int_panic (src : Buf) (i b : Nat) (hb : src[i]? = some b)
    (h36 : b = 36) (hint : Parser.parse_int src i = .panic) :
    Parser.parse_bulk_string src i = .panic := by
  rw [Parser.parse_bulk_string, hb]
  simp only [if_pos h36, hint]

theorem parse_bulk_int_err (src : Buf) (i b : Nat) (e : RESPError) (hb : src[i]? = some b)
    (h36 : b = 36) (hint : Parser.parse_int src i = .err e) :
    Parser.parse_bulk_string src i = .err e := by
  rw [Parser.parse_bulk_string, hb]
  simp only [if_pos h36, hint]

theorem parse_bulk_long (src : Buf) (i b j : Nat) (v : Int) (hb : src[i]? = some b)
    (h36 : b = 36) (hint : Parser.parse_int src i = .ok (j, v))
    (hlong : j + asUsize v > src.length) :
    Parser.parse_bulk_string src i = .err .UnexpectedEnd := by
  rw [Parser.parse_bulk_string, hb]
  simp only [if_pos h36, hint]
  simp only [if_pos hlong]

theorem parse_bulk_ok (src : Buf) (i b j : Nat) (v : Int) (hb : src[i]? = some b)
    (h36 : b = 36) (hint : Parser.parse_int src i = .ok (j, v))
    (hfit : ¬(j + asUsize v > src.length)) :
    Parser.parse_bulk_string src i = .ok (j + asUsize v + 2, .String ⟨j, j + asUsize v⟩) := by
  rw [Parser.parse_bulk_string, hb]
  simp only [if_pos h36, hint]
  simp only [if_neg hfit]

theorem parse_bulk_inv (src : Buf) (i k : Nat) (w : RedisBufSplit)
    (h : Parser.parse_bulk_string src i = .ok (k, w)) :
    ∃ j v, src[i]? = some 36 ∧ Parser.parse_int src i = .ok (j, v) ∧
      j + asUsize v ≤ src.length ∧ k = j + asUsize v + 2 ∧
      w = .String ⟨j, j + asUsize v⟩ := by
  cases hb : src[i]? with
  | none => rw [parse_bulk_oob src i hb] at h; exact absurd h (by simp)
  | some b =>
    by_cases h36 : b = 36
    · subst h36
      cases hint : Parser.parse_int src i with
      | panic => rw [parse_bulk_int_panic src i 36 hb rfl hint] at h; exact absurd h (by simp)
      | err e => rw [parse_bulk_int_err src i 36 e hb rfl hint] at h; exact absurd h (by simp)
      | ok x =>
        obtain ⟨j, v⟩ := x
        by_cases hlong : j + asUsize v > src.length
        · rw [parse_bulk_long src i 36 j v hb rfl hint hlong] at h
          exact absurd h (by simp)
        · rw [parse_bulk_ok src i 36 j v hb rfl hint hlong] at h
          simp at h
          obtain ⟨h1, h2⟩ := h
          exact ⟨j, v, rfl, rfl, by omega, by omega, h2.symm⟩
    · rw [parse_bulk_notdollar src i b hb h36] at h
      exact absurd h (by simp)

theorem parse_bulk_progress (src : Buf) (i k : Nat) (w : RedisBufSplit)
    (h : Parser.parse_bulk_string src i = .ok (k, w)) : i + 2 < k := by
  obtain ⟨j, v, -, hint, -, hk, -⟩ := parse_bulk_inv src i k w h
  have := parse_int_progress src i j v hint
  omega

theorem parse_bulk_shift_ok (p l : Buf) (i k : Nat) (w : RedisBufSplit)
    (h : Parser.parse_bulk_string l i = .ok (k, w)) :
    ∃ ws we, w = .String ⟨ws, we⟩ ∧
      Parser.parse_bulk_string (p ++ l) (p.length + i) =
        .ok (p.length + k, .String ⟨p.length + ws, p.length + we⟩) := by
  obtain ⟨j, v, hb, hint, hfit, hk, hw⟩ := parse_bulk_inv l i k w h
  refine ⟨j, j + asUsize v, hw, ?_⟩
  have hb' : (p ++ l)[p.length + i]? = some 36 := by rw [getElem?_shift, hb]
  have hint' := parse_int_shift_ok p l i j v hint
  have hfit' : ¬(p.length + j + asUsize v > (p ++ l).length) := by
    rw [List.length_append]
    omega
  have := parse_bulk_ok (p ++ l) (p.length + i) 36 (p.length + j) v hb' rfl hint'
    (by rw [List.length_append]; omega)
  subst hk
  have heq1 : p.length + (j + asUsize v) = p.length + j + asUsize v := by omega
  have heq2 : p.length + (j + asUsize v + 2) = p.length + j + asUsize v + 2 := by omega
  rw [this, heq1, heq2]

theorem loop_zero (src : Buf) (pos : Nat) (acc : List RedisBufSplit) :
    Parser.parseArrayLoop src 0 pos acc = .ok (pos, acc) := rfl

theorem loop_oob (src : Buf) (c pos : Nat) (acc : List RedisBufSplit)
    (hb : src[pos]? = none) : Parser.parseArrayLoop src (c + 1) pos acc = .panic := by
  rw [Parser.parseArrayLoop, hb]

theorem loop_notdollar (src : Buf) (c pos b : Nat) (acc : List RedisBufSplit)
    (hb : src[pos]? = some b) (h36 : b ≠ 36) :
    Parser.parseArrayLoop src (c + 1) pos acc = .panic := by
  rw [Parser.parseArrayLoop, hb]
  simp only [if_neg h36]

theorem loop_bulk_fail (src : Buf) (c pos b : Nat) (acc : List RedisBufSplit)
    (hb : src[pos]? = some b) (h36 : b = 36)
    (hfail : ∀ x, Parser.parse_bulk_string src pos ≠ .ok x) :
    Parser.parseArrayLoop src (c + 1) pos acc = .panic := by
  rw [Parser.parseArrayLoop, hb]
  simp only [if_pos h36]
  cases hres : Parser.parse_bulk_string src pos with
  | ok x => exact absurd hres (hfail x)
  | err e => rfl
  | panic => rfl

theorem loop_step (src : Buf) (c pos newPos b : Nat) (acc : List RedisBufSplit)
    (w : RedisBufSplit) (hb : src[pos]? = some b) (h36 : b = 36)
    (hok : Parser.parse_bulk_string src pos = .ok (newPos, w)) :
    Parser.parseArrayLoop src (c + 1) pos acc =
      Parser.parseArrayLoop src c newPos (acc ++ [w]) := by
  rw [Parser.parseArrayLoop, hb]
  simp only [if_pos h36, hok]

theorem loop_progress (src : Buf) :
    ∀ c pos acc q toks, Parser.parseArrayLoop src c pos acc = .ok (q, toks) → pos ≤ q := by
  intro c
  induction c with
  | zero =>
    intro pos acc q toks h
    rw [loop_zero] at h
    simp at h
    omega
  | succ c0 ih =>
    intro pos acc q toks h
    cases hb : src[pos]? with
    | none => rw [loop_oob src c0 pos acc hb] at h; exact absurd h (by simp)
    | some b =>
      by_cases h36 : b = 36
      · cases hres : Parser.parse_bulk_string src pos with
        | ok x =>
          obtain ⟨newPos, w⟩ := x
          rw [loop_step src c0 pos newPos b acc w hb h36 hres] at h
          have h1 := parse_bulk_progress src pos newPos w hres
          have h2 := ih newPos (acc ++ [w]) q toks h
          omega
        | err e =>
          rw [loop_bulk_fail src c0 pos b acc hb h36 (by rw [hres]; intro x hx; exact absurd hx (by simp))] at h
          exact absurd h (by simp)
        | panic =>
          rw [loop_bulk_fail src c0 pos b acc hb h36 (by rw [hres]; intro x hx; exact absurd hx (by simp))] at h
          exact absurd h (by simp)
      · rw [loop_notdollar src c0 pos b acc hb h36] at h
        exact absurd h (by simp)

theorem parse_array_oob (src : Buf) (i : Nat) (hb : src[i]? = none) :
    Parser.parse_array src i = .panic := by
  rw [Parser.parse_array, hb]

theorem parse_array_notstar (src : Buf) (i b : Nat) (hb : src[i]? = some b)
    (h42 : b ≠ 42) : Parser.parse_array src i = .panic := by
  rw [Parser.parse_array, hb]
  simp only [if_neg h42]

theorem parse_array_int_panic (src : Buf) (i b : Nat) (hb : src[i]? = some b)
    (h42 : b = 42) (hint : Parser.parse_int src i = .panic) :
    Parser.parse_array src i = .panic := by
  rw [Parser.parse_array, hb]
  simp only [if_pos h42, hint]

theorem parse_array_int_err (src : Buf) (i b : Nat) (e : RESPError) (hb : src[i]? = some b)
    (h42 : b = 42) (hint : Parser.parse_int src i = .err e) :
    Parser.parse_array src i = .err e := by
  rw [Parser.parse_array, hb]
  simp only [if_pos h42, hint]

theorem parse_array_loop_ok (src : Buf) (i b j q : Nat) (v : Int)
    (toks : List RedisBufSplit) (hb : src[i]? = some b) (h42 : b = 42)
    (hint : Parser.parse_int src i = .ok (j, v))
    (hloop : Parser.parseArrayLoop src (asUsize v) j [] = .ok (q, toks)) :
    Parser.parse_array src i = .ok (q, .Array toks) := by
  rw [Parser.parse_array, hb]
  simp only [if_pos h42, hint, hloop]

theorem parse_array_loop_panic (src : Buf) (i b j : Nat) (v : Int)
    (hb : src[i]? = some b) (h42 : b = 42)
    (hint : Parser.parse_int src i = .ok (j, v))
    (hloop : Parser.parseArrayLoop src (asUsize v) j [] = .panic) :
    Parser.parse_array src i = .panic := by
  rw [Parser.parse_array, hb]
  simp only [if_pos h42, hint, hloop]

theorem parse_array_inv (src : Buf) (i q : Nat) (w : RedisBufSplit)
    (h : Parser.parse_array src i = .ok (q, w)) :
    ∃ j v toks, src[i]? = some 42 ∧ Parser.parse_int src i = .ok (j, v) ∧
      Parser.parseArrayLoop src (asUsize v) j [] = .ok (q, toks) ∧
      w = .Array toks := by
  cases hb : src[i]? with
  | none => rw [parse_array_oob src i hb] at h; exact absurd h (by simp)
  | some b =>
    by_cases h42 : b = 42
    · subst h42
      cases hint : Parser.parse_int src i with
      | panic => rw [parse_array_int_panic src i 42 hb rfl hint] at h; exact absurd h (by simp)
      | err e => rw [parse_array_int_err src i 42 e hb rfl hint] at h; exact absurd h (by simp)
      | ok x =>
        obtain ⟨j, v⟩ := x
        cases hloop : Parser.parseArrayLoop src (asUsize v) j [] with
        | panic =>
          rw [parse_array_loop_panic src i 42 j v hb rfl hint hloop] at h
          exact absurd h (by simp)
        | err e =>
          rw [Parser.parse_array, hb] at h
          simp only [if_pos rfl, hint, hloop] at h
          exact absurd h (by simp)
        | ok y =>
          obtain ⟨q0, toks⟩ := y
          rw [parse_array_loop_ok src i 42 j q0 v toks hb rfl hint hloop] at h
          simp at h
          obtain ⟨h1, h2⟩ := h
          exact ⟨j, v, toks, rfl, rfl, by rw [hloop, h1], h2.symm⟩
    · rw [parse_array_notstar src i b hb h42] at h
      exact absurd h (by simp)

theorem parse_array_progress (src : Buf) (i q : Nat) (w : RedisBufSplit)
    (h : Parser.parse_array src i = .ok (q, w)) : i < q := by
  obtain ⟨j, v, toks, -, hint, hloop, -⟩ := parse_array_inv src i q w h
  have h1 := parse_int_progress src i j v hint
  have h2 := loop_progress src (asUsize v) j [] q toks hloop
  omega

/-!
Command decoder (src/parser.rs, `Parser::parse_commands`).  Every decoded
command carries `bytes_read`, the number of raw buffer bytes it consumed.
-/

/-- Mirror of `enum Command`.  `Duration` is a number of milliseconds. -/
inductive Command where
  | Set (key value : Buf) (ttl : Option Nat)
  | Get (key : Buf)
  | Ping
  | Echo (s : Buf)
  | Docs
  | Info
  | ReplConf (sub : Buf)
  | Psync
  | Unknown
  deriving Repr, DecidableEq

/-- Mirror of `struct ParsedCommand`. -/
structure ParsedCommand where
  command : Command
  bytes_read : Nat
  deriving Repr, DecidableEq

/-- The dispatch on one parsed array performed inside the `b'*'` arm of
`Parser::parse_commands`: case-folds element 0 and builds the
`ParsedCommand`.  Missing elements panic (Rust `a[i]` indexing); an unknown
command name is `unimplemented!`. -/
def Parser.pcDispatch (bm : Buf) (a : List RedisBufSplit) (bytes_read : Nat) :
    Outcome ParsedCommand :=
  match a[0]? with
  | none => .panic
  | some a0 =>
    let command := lower (a0.to_string bm)
    if command = bytesOf "echo" then
      match a[1]? with
      | none => .panic
      | some a1 => .ok ⟨.Echo (a1.to_string bm), bytes_read⟩
    else if command = bytesOf "ping" then
      .ok ⟨.Ping, bytes_read⟩
    else if command = bytesOf "set" then
      match a[1]?, a[2]? with
      | some a1, some a2 =>
        if a.length = 5 then
          match a[3]?, a[4]? with
          | some a3, some a4 =>
            let expiry_str := a4.to_string bm
            match parseU64 expiry_str with
            | none => .err (.IntParseFailure expiry_str)
            | some n =>
              let opt := lower (a3.to_string bm)
              if opt = bytesOf "px" then
                .ok ⟨.Set (a1.to_string bm) (a2.to_string bm) (some n), bytes_read⟩
              else if opt = bytesOf "ex" then
                .ok ⟨.Set (a1.to_string bm) (a2.to_string bm) (some (1000 * n)), bytes_read⟩
              else .err (.InvalidArgument (a3.to_string bm))
          | _, _ => .panic
        else .ok ⟨.Set (a1.to_string bm) (a2.to_string bm) none, bytes_read⟩
      | _, _ => .panic
    else if command = bytesOf "get" then
      match a[1]? with
      | none => .panic
      | some a1 => .ok ⟨.Get (a1.to_string bm), bytes_read⟩
    else if command = bytesOf "docs" then
      .ok ⟨.Docs, bytes_read⟩
    else if command = bytesOf "info" then
      .ok ⟨.Info, bytes_read⟩
    else if command = bytesOf "replconf" then
      match a[1]? with
      | none => .panic
      | some a1 => .ok ⟨.ReplConf (a1.to_string bm), bytes_read⟩
    else if command = bytesOf "psync" then
      .ok ⟨.Psync, bytes_read⟩
    else .panic

/-- The loop of `Parser::parse_commands`, with an explicit fuel bound on the
number of iterations; `none` means the fuel ran out, which never happens for
`fuel > bm.length - pos` because every iteration strictly advances `pos`
(`pcLoop_fuel` below), so the fuel-based model agrees with the Rust loop. -/
def Parser.pcLoop (bm : Buf) (fuel pos : Nat) (acc : List ParsedCommand) :
    Option (Outcome (List ParsedCommand)) :=
  if pos < bm.length then
    match fuel with
    | 0 => none
    | fuel + 1 =>
      match bm[pos]? with
      | none => some .panic
      | some b =>
        if b = 42 then
          match Parser.parse_array bm pos with
          | .panic => some .panic
          | .err e => some (.err e)
          | .ok (i, res) =>
            match res with
            | .Array a =>
              match Parser.pcDispatch bm a (i - pos) with
              | .panic => some .panic
              | .err e => some (.err e)
              | .ok c => Parser.pcLoop bm fuel i (acc ++ [c])
            | _ => some .panic
        else if b = 36 then
          match Parser.parse_bulk_string bm pos with
          | .panic => some .panic
          | .err e => some (.err e)
          | .ok (i, _) => Parser.pcLoop bm fuel i acc
        else some .panic
  else some (.ok acc)

/-- Mirror of `Parser::parse_commands` (the logger has no modelled effect). -/
def Parser.parse_commands (bm : Buf) : Option (Outcome (List ParsedCommand)) :=
  Parser.pcLoop bm (bm.length + 1) 0 []

theorem pcLoop_fuel (bm : Buf) :
    ∀ fuel pos acc, bm.length < fuel + pos → Parser.pcLoop bm fuel pos acc ≠ none := by
  intro fuel
  induction fuel with
  | zero =>
    intro pos acc hlt
    rw [Parser.pcLoop]
    simp only [if_neg (by omega : ¬pos < bm.length)]
    simp
  | succ f ih =>
    intro pos acc hlt
    rw [Parser.pcLoop]
    by_cases hpos : pos < bm.length
    · simp only [if_pos hpos]
      cases hb : bm[pos]? with
      | none => simp
      | some b =>
        by_cases h42 : b = 42
        · simp only [if_pos h42]
          cases hpa : Parser.parse_array bm pos with
          | panic => simp
          | err e => simp
          | ok x =>
            obtain ⟨i, res⟩ := x
            have hprog := parse_array_progress bm pos i res hpa
            cases res with
            | Array a =>
              cases hd : Parser.pcDispatch bm a (i - pos) with
              | panic => simp [hd]
              | err e => simp [hd]
              | ok c =>
                simp only [hd]
                exact ih i (acc ++ [c]) (by omega)
            | String w => simp
            | Error w => simp
            | Int n => simp
            | NullArray => simp
            | NullBulkString => simp
        · simp only [if_neg h42]
          by_cases h36 : b = 36
          · simp only [if_pos h36]
            cases hpb : Parser.parse_bulk_string bm pos with
            | panic => simp
            | err e => simp
            | ok x =>
              obtain ⟨i, w⟩ := x
              have hprog := parse_bulk_progress bm pos i w hpb
              exact ih i acc (by omega)
          · simp only [if_neg h36]
            simp
    · simp only [if_neg hpos]
      simp

/-- Totality of the decoder loop: the chosen fuel is always sufficient. -/
theorem parse_commands_total (bm : Buf) : Parser.parse_commands bm ≠ none :=
  pcLoop_fuel bm (bm.length + 1) 0 [] (by omega)

/-!
Server data model and execution (src/server.rs).
-/

/-- Mirror of `enum RedisValue` (server.rs). -/
inductive RedisValue where
  | String (s : Buf)
  | Int (i : Int)
  | Array (l : List RedisValue)
  | Null
  deriving Repr

mutual

/-- Mirror of `RedisValue::to_response`: the reply encoder.  A `String`
encodes as a RESP simple string, an `Array` as `*<n>\r\n` followed by the
concatenated element encodings, `Null` as a null bulk string. -/
def RedisValue.to_response (v : RedisValue) : Buf :=
  match v with
  | .String s => [43] ++ s ++ crlf
  | .Int i => [58] ++ intToDec i ++ crlf
  | .Array a => [42] ++ natToDec a.length ++ crlf ++ RedisValue.toResponseList a
  | .Null => bytesOf "$-1\r\n"

/-- Concatenation of the element encodings in `RedisValue::to_response`'s
`Array` arm (its loop appends each element's `to_response` in order). -/
def RedisValue.toResponseList (l : List RedisValue) : Buf :=
  match l with
  | [] => []
  | x :: xs => RedisValue.to_response x ++ RedisValue.toResponseList xs

end

/-- Mirror of `struct RedisConfig`. -/
structure RedisConfig where
  dir : Buf
  dbfilename : Buf
  port : Nat
  master_host_port : Option (Buf × Nat)
  master_replid : Buf
  master_reploffset : Int

/-- The shared store: the model of
`Mutex<HashMap<String, (RedisValue, Option<Instant>)>>` as a map from key
bytes to entries. -/
def Db := Buf → Option (RedisValue × Option Nat)

/-- Model of `HashMap::insert`. -/
def dbInsert (db : Db) (key : Buf) (entry : RedisValue × Option Nat) : Db :=
  fun k => if k = key then some entry else db k

/-- Model of `HashMap::remove`. -/
def dbRemove (db : Db) (key : Buf) : Db :=
  fun k => if k = key then none else db k

/-- The empty store. -/
def dbEmpty : Db := fun _ => none

/-- Mirror of `RedisServer::get` at monotonic instant `now`: look the key up;
if it carries a deadline that has strictly passed (`Instant::now() >
expiration`), remove it and report absent; otherwise return a clone of the
value.  Returns the result together with the store after the call. -/
def RedisServer.get (db : Db) (key : Buf) (now : Nat) : Option RedisValue × Db :=
  match db key with
  | none => (none, db)
  | some (value, none) => (some value, db)
  | some (value, some expiration) =>
    if now > expiration then (none, dbRemove db key) else (some value, db)

/-- Mirror of `RedisServer::set` at monotonic instant `now`: insert/overwrite
the entry, with deadline `now + d` when a duration `d` is given. -/
def RedisServer.set (db : Db) (key : Buf) (value : RedisValue) (duration : Option Nat)
    (now : Nat) : Db :=
  dbInsert db key (value, duration.map (fun d => now + d))

/-- Mirror of `RedisServer::info`. -/
def RedisServer.info (cfg : RedisConfig) (sectionArg : Buf) : RedisValue :=
  if sectionArg = bytesOf "replication" then
    .String (bytesOf "role:" ++
      (if cfg.master_host_port.isSome then bytesOf "slave" else bytesOf "master") ++
      [10] ++ bytesOf "master_replid:" ++ cfg.master_replid ++
      [10] ++ bytesOf "master_repl_offset:" ++ intToDec cfg.master_reploffset)
  else .Null

/-- Hex digit value. -/
def hexVal (c : Char) : Option Nat :=
  if 48 ≤ c.toNat ∧ c.toNat ≤ 57 then some (c.toNat - 48)
  else if 97 ≤ c.toNat ∧ c.toNat ≤ 102 then some (c.toNat - 87)
  else if 65 ≤ c.toNat ∧ c.toNat ≤ 70 then some (c.toNat - 55)
  else none

/-- Mirror of `decode_hex`: pairs of hex digits to bytes. -/
def decode_hex : List Char → Option Buf
  | [] => some []
  | [_] => none
  | a :: b :: rest =>
    match hexVal a, hexVal b, decode_hex rest with
    | some x, some y, some tail => some ((16 * x + y) :: tail)
    | _, _, _ => none

/-- The `EMPTY_RDB_HEX` constant of server.rs. -/
def EMPTY_RDB_HEX : String :=
  "524544495330303131fa0972656469732d76657205372e322e30fa0a72656469732d62697473c040fa056374696d65c26d08bc65fa08757365642d6d656dc2b0c41000fa08616f662d62617365c000fff06e3bfec0ff5aa2"

/-- Mirror of `RedisServer::rdb_dump`: the decoded empty-RDB payload (the
decode succeeds on the valid constant, so the `expect` never fires). -/
def RedisServer.rdb_dump : Buf := (decode_hex EMPTY_RDB_HEX.toList).getD []

/-- Per-connection execution state observable in `RedisServer::evaluate`:
the store, the bytes written to this connection's stream (in order), and the
messages published to the replication broadcast channel (in order). -/
structure SState where
  db : Db
  out : List Buf
  pubs : List Buf

/-- Result of running `RedisServer::evaluate` over a buffer: ran to
completion, panicked (partial effects retained), or entered the endless
replication-subscriber loop of the `psync` arm and never returns. -/
inductive EvalRes where
  | done (s : SState)
  | panic (s : SState)
  | subscribed (s : SState)

/-- The store of the final state. -/
def EvalRes.state : EvalRes → SState
  | .done s => s
  | .panic s => s
  | .subscribed s => s

/-- Mirror of `RedisServer::reply`: append the bytes to the connection
output unless `no_response` is set. -/
def RedisServer.reply (st : SState) (resp : Buf) (no_response : Bool) : SState :=
  if no_response then st else { st with out := st.out ++ [resp] }

/-- The dispatch on one parsed array inside `RedisServer::evaluate`
(server.rs lines 168–268), for a server with configuration `cfg`, broadcast
sender present iff `txSome`, at monotonic instant `now`, on the read buffer
`bm`.  Publishing on the broadcast channel is modelled as appending to
`pubs` (a send error on a channel with no subscribers, which would panic via
`expect`, is not modelled).  A replica is a server with `master_host_port`
set, as in the source. -/
def RedisServer.evalArray (cfg : RedisConfig) (txSome : Bool) (now : Nat) (bm : Buf)
    (a : List RedisBufSplit) (st : SState) : EvalRes :=
  let is_replica := cfg.master_host_port.isSome
  match a[0]? with
  | none => .panic st
  | some a0 =>
    let command := lower (a0.to_string bm)
    if command = bytesOf "echo" then
      match a[1]? with
      | none => .panic st
      | some a1 =>
        let echo_str := a1.to_string bm
        .done (RedisServer.reply st
          ([36] ++ natToDec echo_str.length ++ crlf ++ echo_str ++ crlf) false)
    else if command = bytesOf "ping" then
      .done (RedisServer.reply st (bytesOf "+PONG\r\n") false)
    else if command = bytesOf "set" then
      match
        (if cfg.master_host_port.isNone then
          if txSome then some { st with pubs := st.pubs ++ [bm] } else none
        else some st) with
      | none => .panic st
      | some st1 =>
        if a.length = 5 then
          match a[1]?, a[2]?, a[4]? with
          | some a1, some a2, some a4 =>
            let expiry := a4.to_string bm
            match parseU64 expiry with
            | none => .panic st1
            | some ms =>
              let st2 := { st1 with
                db := RedisServer.set st1.db (a1.to_string bm)
                  (.String (a2.to_string bm)) (some ms) now }
              .done (RedisServer.reply st2 (bytesOf "+OK\r\n") is_replica)
          | _, _, _ => .panic st1
        else
          match a[1]?, a[2]? with
          | some a1, some a2 =>
            let st2 := { st1 with
              db := RedisServer.set st1.db (a1.to_string bm)
                (.String (a2.to_string bm)) none now }
            .done (RedisServer.reply st2 (bytesOf "+OK\r\n") is_replica)
          | _, _ => .panic st1
    else if command = bytesOf "get" then
      match a[1]? with
      | none => .panic st
      | some a1 =>
        let res := RedisServer.get st.db (a1.to_string bm) now
        let st1 := { st with db := res.2 }
        match res.1 with
        | some value => .done (RedisServer.reply st1 value.to_response false)
        | none => .done (RedisServer.reply st1 (bytesOf "$-1\r\n") false)
    else if command = bytesOf "docs" then
      let docs_str := bytesOf "https://github.com/redis/redis-doc/blob/master/commands.md"
      .done (RedisServer.reply st
        ([36] ++ natToDec docs_str.length ++ crlf ++ docs_str ++ crlf) false)
    else if command = bytesOf "info" then
      match a[1]? with
      | none => .panic st
      | some a1 =>
        .done (RedisServer.reply st
          (RedisServer.info cfg (a1.to_string bm)).to_response false)
    else if command = bytesOf "replconf" then
      .done { st with out := st.out ++ [bytesOf "+OK\r\n"] }
    else if command = bytesOf "psync" then
      let st1 := RedisServer.reply st
        (RedisValue.String (bytesOf "FULLRESYNC " ++ cfg.master_replid ++
          bytesOf " 0")).to_response false
      let st2 := RedisServer.reply st1
        ([36] ++ natToDec RedisServer.rdb_dump.length ++ crlf) false
      let st3 := RedisServer.reply st2 RedisServer.rdb_dump false
      if txSome then .subscribed st3 else .panic st3
    else .panic st

/-- The `while pos < bm.len()` loop of `RedisServer::evaluate`, with fuel
(`none` = fuel ran out; `fuel > bm.length - pos` always suffices, see
`evalLoop_fuel`).  Only `*`-led frames are handled; anything else is
`unimplemented!`. -/
def RedisServer.evalLoop (cfg : RedisConfig) (txSome : Bool) (now : Nat) (bm : Buf)
    (fuel pos : Nat) (st : SState) : Option EvalRes :=
  if pos < bm.length then
    match fuel with
    | 0 => none
    | fuel + 1 =>
      match bm[pos]? with
      | none => some (.panic st)
      | some b =>
        if b = 42 then
          match Parser.parse_array bm pos with
          | .panic => some (.panic st)
          | .err _ => some (.panic st)
          | .ok (i, res) =>
            match res with
            | .Array a =>
              match RedisServer.evalArray cfg txSome now bm a st with
              | .done st1 => RedisServer.evalLoop cfg txSome now bm fuel i st1
              | .panic st1 => some (.panic st1)
              | .subscribed st1 => some (.subscribed st1)
            | _ => some (.panic st)
        else some (.panic st)
  else some (.done st)

/-- Mirror of `RedisServer::evaluate` run over a whole read buffer. -/
def RedisServer.evaluate (cfg : RedisConfig) (txSome : Bool) (now : Nat) (bm : Buf)
    (st : SState) : Option EvalRes :=
  RedisServer.evalLoop cfg txSome now bm (bm.length + 1) 0 st

theorem evalLoop_fuel (cfg : RedisConfig) (txSome : Bool) (now : Nat) (bm : Buf) :
    ∀ fuel pos st, bm.length < fuel + pos →
      RedisServer.evalLoop cfg txSome now bm fuel pos st ≠ none := by
  intro fuel
  induction fuel with
  | zero =>
    intro pos st hlt
    rw [RedisServer.evalLoop]
    simp only [if_neg (by omega : ¬pos < bm.length)]
    simp
  | succ f ih =>
    intro pos st hlt
    rw [RedisServer.evalLoop]
    by_cases hpos : pos < bm.length
    · simp only [if_pos hpos]
      cases hb : bm[pos]? with
      | none => simp
      | some b =>
        by_cases h42 : b = 42
        · simp only [if_pos h42]
          cases hpa : Parser.parse_array bm pos with
          | panic => simp
          | err e => simp
          | ok x =>
            obtain ⟨i, res⟩ := x
            have hprog := parse_array_progress bm pos i res hpa
            cases res with
            | Array a =>
              cases hd : RedisServer.evalArray cfg txSome now bm a st with
              | done st1 =>
                simp only [hd]
                exact ih i st1 (by omega)
              | panic st1 => simp [hd]
              | subscribed st1 => simp [hd]
            | String w => simp
            | Error w => simp
            | Int n => simp
            | NullArray => simp
            | NullBulkString => simp
        · simp only [if_neg h42]
          simp
    · simp only [if_neg hpos]
      simp

/-- Totality of the execution loop: the chosen fuel is always sufficient. -/
theorem evaluate_total (cfg : RedisConfig) (txSome : Bool) (now : Nat) (bm : Buf)
    (st : SState) : RedisServer.evaluate cfg txSome now bm st ≠ none :=
  evalLoop_fuel cfg txSome now bm (bm.length + 1) 0 st (by omega)

/-!
Replica handshake driver (src/main.rs, `handshake_master_ping`).
-/

/-- Mirror of `handshake_master_ping` (main.rs lines 25–72), modelled as the
ordered list of messages written to the master connection on the path where
every write and read succeeds.  Each command is a `RedisValue::Array` of
`RedisValue::String`s rendered by `to_response`; the replies read from the
master are ignored by the source (beyond logging), so they do not appear in
the model.  The function returns after the third message: no `PSYNC` is ever
sent. -/
def handshake_master_ping (port : Nat) : List Buf :=
  let sent : List Buf := []
  let command := RedisValue.Array [RedisValue.String (bytesOf "PING")]
  let sent := sent ++ [command.to_response]
  let command := RedisValue.Array [RedisValue.String (bytesOf "REPLCONF"),
    RedisValue.String (bytesOf "listening-port"), RedisValue.String (natToDec port)]
  let sent := sent ++ [command.to_response]
  let command := RedisValue.Array [RedisValue.String (bytesOf "REPLCONF"),
    RedisValue.String (bytesOf "capa"), RedisValue.String (bytesOf "psync2")]
  let sent := sent ++ [command.to_response]
  sent

/-- A master-role configuration (no `--replicaof`), as built by
`RedisServer::new` with the fixed replid. -/
def cfgMaster : RedisConfig :=
  { dir := bytesOf "."
    dbfilename := bytesOf "dump.rdb"
    port := 6379
    master_host_port := none
    master_replid := bytesOf "8371b4fb1155b71f4a04d3e1bc3e18c4a990aeeb"
    master_reploffset := 0 }

/-- A replica-role configuration (`--replicaof "localhost 6379"`). -/
def cfgReplica : RedisConfig :=
  { cfgMaster with master_host_port := some (bytesOf "localhost", 6379) }

/-- The empty per-connection state. -/
def st0 : SState := { db := dbEmpty, out := [], pubs := [] }

/-- The connection outputs of an evaluation result. -/
def outsOf (r : Option EvalRes) : Option (List Buf) := r.map (fun x => x.state.out)

/-- The published broadcast messages of an evaluation result. -/
def pubsOf (r : Option EvalRes) : Option (List Buf) := r.map (fun x => x.state.pubs)

example :
    outsOf (RedisServer.evaluate cfgMaster true 0 (bytesOf "*1\r\n$4\r\nPING\r\n") st0) =
      some [bytesOf "+PONG\r\n"] := by rfl

example :
    outsOf (RedisServer.evaluate cfgMaster true 0
        (bytesOf "*2\r\n$4\r\nECHO\r\n$3\r\nhey\r\n") st0) =
      some [bytesOf "$3\r\nhey\r\n"] := by rfl

example :
    outsOf (RedisServer.evaluate cfgMaster true 0
        (bytesOf "*3\r\n$3\r\nSET\r\n$3\r\nfoo\r\n$3\r\nbar\r\n") st0) =
      some [bytesOf "+OK\r\n"] := by rfl

example :
    pubsOf (RedisServer.evaluate cfgMaster true 0
        (bytesOf "*3\r\n$3\r\nSET\r\n$3\r\nfoo\r\n$3\r\nbar\r\n") st0) =
      some [bytesOf "*3\r\n$3\r\nSET\r\n$3\r\nfoo\r\n$3\r\nbar\r\n"] := by rfl

/-!
Claim theorems.
-/

/-- A key counts as expired in `RedisServer::get` when it has a deadline that
is strictly in the past (`Instant::now() > expiration`). -/
def Expired (db : Db) (k : Buf) (now : Nat) : Prop :=
  ∃ v e, db k = some (v, some e) ∧ e < now

/-- C10: `get` leaves every key other than `k` unchanged; `set` changes only
the entry of `k`; `get` removes exactly the entry of `k` when it is expired
and leaves the store untouched otherwise. -/
theorem C10_store_frame_effect (db : Db) (k k' : Buf) (now : Nat) (v : RedisValue)
    (dur : Option Nat) (hne : k' ≠ k) :
    (RedisServer.get db k now).2 k' = db k'
    ∧ RedisServer.set db k v dur now k' = db k'
    ∧ (Expired db k now →
        (RedisServer.get db k now).2 k = none ∧ (RedisServer.get db k now).1 = none)
    ∧ (¬Expired db k now → (RedisServer.get db k now).2 = db) := by
  refine ⟨?_, ?_, ?_, ?_⟩
  · rcases hdb : db k with _ | ⟨v0, e0⟩
    · rw [RedisServer.get, hdb]
    · rcases e0 with _ | e1
      · rw [RedisServer.get, hdb]
      · rw [RedisServer.get, hdb]
        by_cases he : now > e1
        · simp only [if_pos he]
          simp [dbRemove, hne]
        · simp only [if_neg he]
  · simp [RedisServer.set, dbInsert, hne]
  · rintro ⟨v0, e0, hdb, he⟩
    rw [RedisServer.get, hdb]
    simp only [if_pos (by omega : now > e0)]
    exact ⟨by simp [dbRemove], trivial⟩
  · intro hnexp
    rcases hdb : db k with _ | ⟨v0, e0⟩
    · rw [RedisServer.get, hdb]
    · rcases e0 with _ | e1
      · rw [RedisServer.get, hdb]
      · rw [RedisServer.get, hdb]
        have he : ¬now > e1 := fun hgt => hnexp ⟨v0, e1, hdb, by omega⟩
        simp only [if_neg he]

/-- Witness for C10 at concrete inputs (an expired entry under key "x"). -/
theorem C10_store_frame_effect_witness :
    bytesOf "y" ≠ bytesOf "x" ∧
    ((RedisServer.get (dbInsert dbEmpty (bytesOf "x")
        (.String (bytesOf "1"), some 5)) (bytesOf "x") 10).2 (bytesOf "y") =
      dbInsert dbEmpty (bytesOf "x") (.String (bytesOf "1"), some 5) (bytesOf "y")
    ∧ RedisServer.set (dbInsert dbEmpty (bytesOf "x") (.String (bytesOf "1"), some 5))
        (bytesOf "x") (.String (bytesOf "2")) none 10 (bytesOf "y") =
      dbInsert dbEmpty (bytesOf "x") (.String (bytesOf "1"), some 5) (bytesOf "y")
    ∧ (Expired (dbInsert dbEmpty (bytesOf "x") (.String (bytesOf "1"), some 5))
        (bytesOf "x") 10 →
        (RedisServer.get (dbInsert dbEmpty (bytesOf "x")
          (.String (bytesOf "1"), some 5)) (bytesOf "x") 10).2 (bytesOf "x") = none
        ∧ (RedisServer.get (dbInsert dbEmpty (bytesOf "x")
          (.String (bytesOf "1"), some 5)) (bytesOf "x") 10).1 = none)
    ∧ (¬Expired (dbInsert dbEmpty (bytesOf "x") (.String (bytesOf "1"), some 5))
        (bytesOf "x") 10 →
        (RedisServer.get (dbInsert dbEmpty (bytesOf "x")
          (.String (bytesOf "1"), some 5)) (bytesOf "x") 10).2 =
        dbInsert dbEmpty (bytesOf "x") (.String (bytesOf "1"), some 5))) :=
  ⟨by decide,
    C10_store_frame_effect (dbInsert dbEmpty (bytesOf "x") (.String (bytesOf "1"), some 5))
      (bytesOf "x") (bytesOf "y") 10 (.String (bytesOf "2")) none (by decide)⟩

/-- C6 (amended): expiry in `RedisServer::get` is strict: after
`SET k v PX d` at instant `s`, `GET` at instant `t` returns the value while
`t ≤ s + d` and returns absent (removing the entry) only when `t > s + d`.
The spec's claim that a deadline equal to the current instant already counts
as expired fails (see `C6_expiry_counterexample`). -/
theorem C6_expiry_strict (db : Db) (k : Buf) (v : RedisValue) (d s t : Nat) :
    (t ≤ s + d → RedisServer.get (RedisServer.set db k v (some d) s) k t
      = (some v, RedisServer.set db k v (some d) s))
    ∧ (s + d < t → RedisServer.get (RedisServer.set db k v (some d) s) k t
      = (none, dbRemove (RedisServer.set db k v (some d) s) k)) := by
  have hk : (RedisServer.set db k v (some d) s) k = some (v, some (s + d)) := by
    simp [RedisServer.set, dbInsert]
  constructor
  · intro ht
    rw [RedisServer.get, hk]
    simp only [if_neg (by omega : ¬t > s + d)]
  · intro ht
    rw [RedisServer.get, hk]
    simp only [if_pos (by omega : t > s + d)]

/-- Witness for C6 (amended) at `d = 100`, `s = 0`, reading at `t = 100`
(still present) and `t = 101` (expired and removed). -/
theorem C6_expiry_strict_witness :
    (100 ≤ 0 + 100 ∧
      RedisServer.get (RedisServer.set dbEmpty (bytesOf "k")
          (.String (bytesOf "v")) (some 100) 0) (bytesOf "k") 100
        = (some (.String (bytesOf "v")),
          RedisServer.set dbEmpty (bytesOf "k") (.String (bytesOf "v")) (some 100) 0))
    ∧ (0 + 100 < 101 ∧
      RedisServer.get (RedisServer.set dbEmpty (bytesOf "k")
          (.String (bytesOf "v")) (some 100) 0) (bytesOf "k") 101
        = (none, dbRemove (RedisServer.set dbEmpty (bytesOf "k")
          (.String (bytesOf "v")) (some 100) 0) (bytesOf "k"))) :=
  ⟨⟨by omega,
    (C6_expiry_strict dbEmpty (bytesOf "k") (.String (bytesOf "v")) 100 0 100).1 (by omega)⟩,
   ⟨by omega,
    (C6_expiry_strict dbEmpty (bytesOf "k") (.String (bytesOf "v")) 100 0 101).2 (by omega)⟩⟩

/-- C6 counterexample: the claim says a key whose deadline is less than or
equal to the current instant reads as absent; at `t = d` exactly
(`SET k v PX 100` at instant 0, `GET` at instant 100, deadline `100 ≤ 100`)
the code still returns the value, because `RedisServer::get` only expires
entries with `Instant::now() > expiration` (strict). -/
theorem C6_expiry_counterexample :
    100 ≤ 100 ∧
    (RedisServer.get (RedisServer.set dbEmpty (bytesOf "k")
        (.String (bytesOf "v")) (some 100) 0) (bytesOf "k") 100).1
      = some (.String (bytesOf "v")) :=
  ⟨by omega, by rfl⟩

/-- C1 (amended): on any connection (replica included), `RedisServer::evaluate`
answers every REPLCONF command — `REPLCONF GETACK *` included — with the
fixed reply `+OK\r\n`; no replication byte counter exists anywhere in the
code, so no ACK array carrying a byte count is ever produced. -/
theorem C1_replconf_replies_ok (cfg : RedisConfig) (txSome : Bool) (now : Nat) (bm : Buf)
    (a0 : RedisBufSplit) (rest : List RedisBufSplit) (st : SState)
    (hcmd : lower (a0.to_string bm) = bytesOf "replconf") :
    RedisServer.evalArray cfg txSome now bm (a0 :: rest) st =
      .done { st with out := st.out ++ [bytesOf "+OK\r\n"] } := by
  rw [RedisServer.evalArray]
  simp only [List.getElem?_cons_zero, hcmd]
  rfl

/-- Witness for C1 (amended): a concrete REPLCONF dispatch. -/
theorem C1_replconf_replies_ok_witness :
    lower ((RedisBufSplit.String ⟨0, 8⟩).to_string (bytesOf "REPLCONF")) =
      bytesOf "replconf" ∧
    RedisServer.evalArray cfgReplica true 0 (bytesOf "REPLCONF")
        [RedisBufSplit.String ⟨0, 8⟩] st0 =
      .done { st0 with out := st0.out ++ [bytesOf "+OK\r\n"] } :=
  ⟨by decide, C1_replconf_replies_ok cfgReplica true 0 (bytesOf "REPLCONF")
    (RedisBufSplit.String ⟨0, 8⟩) [] st0 (by decide)⟩

/-- C1 counterexample: a replica that receives exactly one command from the
master, `REPLCONF GETACK *` (so the required ACK count is 0), writes back
`+OK\r\n` — not the RESP array `*3\r\n$8\r\nREPLCONF\r\n$3\r\nACK\r\n$1\r\n0\r\n`
that the claim requires. -/
theorem C1_getack_counterexample :
    outsOf (RedisServer.evaluate cfgReplica true 0
        (bytesOf "*3\r\n$8\r\nREPLCONF\r\n$6\r\nGETACK\r\n$1\r\n*\r\n") st0) =
      some [bytesOf "+OK\r\n"] ∧
    bytesOf "+OK\r\n" ≠ bytesOf "*3\r\n$8\r\nREPLCONF\r\n$3\r\nACK\r\n$1\r\n0\r\n" :=
  ⟨by rfl, by decide⟩

/-- C8 (amended): on a replica (`master_host_port` set), a SET command
executed by `RedisServer::evaluate` writes nothing to the connection and
publishes nothing, but PING still replies `+PONG\r\n` and REPLCONF still
replies `+OK\r\n` — the code silences only the SET reply, not all replies. -/
theorem C8_replica_outputs (cfg : RedisConfig) (txSome : Bool) (now : Nat) (bm : Buf)
    (a0 a1 a2 : RedisBufSplit) (rest : List RedisBufSplit) (st : SState)
    (hrep : cfg.master_host_port.isSome = true) :
    (lower (a0.to_string bm) = bytesOf "set" →
      ∃ db2, RedisServer.evalArray cfg txSome now bm [a0, a1, a2] st =
        .done { db := db2, out := st.out, pubs := st.pubs })
    ∧ (lower (a0.to_string bm) = bytesOf "ping" →
      RedisServer.evalArray cfg txSome now bm (a0 :: rest) st =
        .done { st with out := st.out ++ [bytesOf "+PONG\r\n"] })
    ∧ (lower (a0.to_string bm) = bytesOf "replconf" →
      RedisServer.evalArray cfg txSome now bm (a0 :: rest) st =
        .done { st with out := st.out ++ [bytesOf "+OK\r\n"] }) := by
  obtain ⟨mhp, hmhp⟩ := Option.isSome_iff_exists.mp hrep
  refine ⟨?_, ?_, ?_⟩
  · intro hcmd
    rw [RedisServer.evalArray]
    simp only [List.getElem?_cons_zero, hcmd, hmhp]
    exact ⟨_, rfl⟩
  · intro hcmd
    rw [RedisServer.evalArray]
    simp only [List.getElem?_cons_zero, hcmd, hmhp]
    rfl
  · intro hcmd
    rw [RedisServer.evalArray]
    simp only [List.getElem?_cons_zero, hcmd, hmhp]
    rfl

/-- Witness for C8 (amended): the PING conjunct on a concrete replica. -/
theorem C8_replica_outputs_witness :
    cfgReplica.master_host_port.isSome = true ∧
    lower ((RedisBufSplit.String ⟨0, 4⟩).to_string (bytesOf "PING")) = bytesOf "ping" ∧
    RedisServer.evalArray cfgReplica true 0 (bytesOf "PING")
        [RedisBufSplit.String ⟨0, 4⟩] st0 =
      .done { st0 with out := st0.out ++ [bytesOf "+PONG\r\n"] } :=
  ⟨rfl, by decide,
    (C8_replica_outputs cfgReplica true 0 (bytesOf "PING") (RedisBufSplit.String ⟨0, 4⟩)
      (RedisBufSplit.String ⟨0, 4⟩) (RedisBufSplit.String ⟨0, 4⟩) [] st0 rfl).2.1
      (by decide)⟩

/-- C8 counterexample: a replica that receives `PING` from the master writes
`+PONG\r\n` back on that connection — the claim requires it to write nothing
(only GETACK replies being allowed). -/
theorem C8_ping_counterexample :
    outsOf (RedisServer.evaluate cfgReplica true 0
        (bytesOf "*1\r\n$4\r\nPING\r\n") st0) = some [bytesOf "+PONG\r\n"] ∧
    [bytesOf "+PONG\r\n"] ≠ ([] : List Buf) :=
  ⟨by rfl, by decide⟩

/-- C9 (amended): on a master, executing a SET publishes to the broadcast
channel the lossy UTF-8 rendering of the **entire current read buffer**
(`String::from_utf8_lossy(&bm)`), not the RESP bytes of the single SET
command; the two only coincide when the buffer holds exactly that one
command. -/
theorem C9_publishes_whole_buffer (cfg : RedisConfig) (now : Nat) (bm : Buf)
    (a0 a1 a2 : RedisBufSplit) (st : SState)
    (hmaster : cfg.master_host_port = none)
    (hcmd : lower (a0.to_string bm) = bytesOf "set") :
    RedisServer.evalArray cfg true now bm [a0, a1, a2] st =
      .done ⟨RedisServer.set st.db (a1.to_string bm) (.String (a2.to_string bm)) none now,
        st.out ++ [bytesOf "+OK\r\n"], st.pubs ++ [bm]⟩ := by
  rw [RedisServer.evalArray]
  simp only [List.getElem?_cons_zero, hcmd, hmaster]
  rfl

/-- Witness for C9 (amended): a concrete 3-element SET on a master. -/
theorem C9_publishes_whole_buffer_witness :
    cfgMaster.master_host_port = none ∧
    lower ((RedisBufSplit.String ⟨0, 3⟩).to_string (bytesOf "SET")) = bytesOf "set" ∧
    RedisServer.evalArray cfgMaster true 0 (bytesOf "SET")
        [RedisBufSplit.String ⟨0, 3⟩, RedisBufSplit.String ⟨0, 3⟩,
          RedisBufSplit.String ⟨0, 3⟩] st0 =
      .done ⟨RedisServer.set st0.db ((RedisBufSplit.String ⟨0, 3⟩).to_string (bytesOf "SET"))
          (.String ((RedisBufSplit.String ⟨0, 3⟩).to_string (bytesOf "SET"))) none 0,
        st0.out ++ [bytesOf "+OK\r\n"], st0.pubs ++ [bytesOf "SET"]⟩ :=
  ⟨rfl, by decide,
    C9_publishes_whole_buffer cfgMaster 0 (bytesOf "SET") (RedisBufSplit.String ⟨0, 3⟩)
      (RedisBufSplit.String ⟨0, 3⟩) (RedisBufSplit.String ⟨0, 3⟩) st0 rfl (by decide)⟩

/-- C9 counterexample: when the master's read buffer holds `PING` followed by
`SET foo bar` (45 bytes), executing the SET publishes the whole 45-byte
buffer — including the PING command — instead of exactly the 31 bytes of the
SET command the claim requires. -/
theorem C9_whole_buffer_counterexample :
    pubsOf (RedisServer.evaluate cfgMaster true 0
        (bytesOf "*1\r\n$4\r\nPING\r\n*3\r\n$3\r\nSET\r\n$3\r\nfoo\r\n$3\r\nbar\r\n") st0) =
      some [bytesOf "*1\r\n$4\r\nPING\r\n*3\r\n$3\r\nSET\r\n$3\r\nfoo\r\n$3\r\nbar\r\n"] ∧
    bytesOf "*1\r\n$4\r\nPING\r\n*3\r\n$3\r\nSET\r\n$3\r\nfoo\r\n$3\r\nbar\r\n" ≠
      bytesOf "*3\r\n$3\r\nSET\r\n$3\r\nfoo\r\n$3\r\nbar\r\n" :=
  ⟨by rfl, by decide⟩

/-- C5 (amended): an array command whose (case-folded) name is none of the
recognized ones makes `RedisServer::evaluate` panic (`unimplemented!`)
without writing anything — there is no `-ERR unknown command\r\n` reply path
in the code, and client input does cause panics. -/
theorem C5_unknown_command_panics (cfg : RedisConfig) (txSome : Bool) (now : Nat)
    (bm : Buf) (a0 : RedisBufSplit) (rest : List RedisBufSplit) (st : SState)
    (h1 : lower (a0.to_string bm) ≠ bytesOf "echo")
    (h2 : lower (a0.to_string bm) ≠ bytesOf "ping")
    (h3 : lower (a0.to_string bm) ≠ bytesOf "set")
    (h4 : lower (a0.to_string bm) ≠ bytesOf "get")
    (h5 : lower (a0.to_string bm) ≠ bytesOf "docs")
    (h6 : lower (a0.to_string bm) ≠ bytesOf "info")
    (h7 : lower (a0.to_string bm) ≠ bytesOf "replconf")
    (h8 : lower (a0.to_string bm) ≠ bytesOf "psync") :
    RedisServer.evalArray cfg txSome now bm (a0 :: rest) st = .panic st := by
  rw [RedisServer.evalArray]
  simp only [List.getElem?_cons_zero, if_neg h1, if_neg h2, if_neg h3, if_neg h4,
    if_neg h5, if_neg h6, if_neg h7, if_neg h8]

/-- Witness for C5 (amended): the unknown command word `foo`. -/
theorem C5_unknown_command_panics_witness :
    lower ((RedisBufSplit.String ⟨0, 3⟩).to_string (bytesOf "FOO")) ≠ bytesOf "echo" ∧
    RedisServer.evalArray cfgMaster true 0 (bytesOf "FOO")
        [RedisBufSplit.String ⟨0, 3⟩] st0 = .panic st0 :=
  ⟨by decide,
    C5_unknown_command_panics cfgMaster true 0 (bytesOf "FOO") (RedisBufSplit.String ⟨0, 3⟩)
      [] st0 (by decide) (by decide) (by decide) (by decide) (by decide) (by decide)
      (by decide) (by decide)⟩

/-- C5 counterexample: the well-formed RESP command `FOO` (an array whose
first element is not a recognized command name) makes the server panic with
no bytes written — the claim requires the reply `-ERR unknown command\r\n`
and no panic. -/
theorem C5_unknown_command_counterexample :
    RedisServer.evaluate cfgMaster true 0 (bytesOf "*1\r\n$3\r\nFOO\r\n") st0 =
      some (.panic st0) ∧
    outsOf (RedisServer.evaluate cfgMaster true 0 (bytesOf "*1\r\n$3\r\nFOO\r\n") st0) =
      some [] :=
  ⟨by rfl, by rfl⟩

/-- C7 (amended): in the decoder (`Parser::parse_commands`), a five-element
SET with trailing `PX <n>` yields a ttl of `n` milliseconds, `EX <n>` yields
`n` seconds (`1000 * n` ms), and any other option name is rejected as
`InvalidArgument`; but in the execution path (`RedisServer::evaluate`) the
option name (element 3) is ignored entirely and element 4 is always applied
as **milliseconds**, so `SET k v EX n` stores a deadline of `now + n` ms
there instead of `now + 1000 * n` ms. -/
theorem C7_set_expiry_options (bm : Buf) (a0 a1 a2 a3 a4 : RedisBufSplit) (br : Nat)
    (cfg : RedisConfig) (txSome : Bool) (now : Nat) (st : SState) (m : Nat)
    (hcmd : lower (a0.to_string bm) = bytesOf "set")
    (hnum : parseU64 (a4.to_string bm) = some m) :
    (lower (a3.to_string bm) = bytesOf "px" →
      Parser.pcDispatch bm [a0, a1, a2, a3, a4] br =
        .ok ⟨.Set (a1.to_string bm) (a2.to_string bm) (some m), br⟩)
    ∧ (lower (a3.to_string bm) = bytesOf "ex" →
      Parser.pcDispatch bm [a0, a1, a2, a3, a4] br =
        .ok ⟨.Set (a1.to_string bm) (a2.to_string bm) (some (1000 * m)), br⟩)
    ∧ (lower (a3.to_string bm) ≠ bytesOf "px" → lower (a3.to_string bm) ≠ bytesOf "ex" →
      Parser.pcDispatch bm [a0, a1, a2, a3, a4] br =
        .err (.InvalidArgument (a3.to_string bm)))
    ∧ (cfg.master_host_port.isSome = true →
      RedisServer.evalArray cfg txSome now bm [a0, a1, a2, a3, a4] st =
        .done ⟨RedisServer.set st.db (a1.to_string bm) (.String (a2.to_string bm))
          (some m) now, st.out, st.pubs⟩) := by
  have e0 : ([a0, a1, a2, a3, a4] : List RedisBufSplit)[0]? = some a0 := rfl
  have e1 : ([a0, a1, a2, a3, a4] : List RedisBufSplit)[1]? = some a1 := rfl
  have e2 : ([a0, a1, a2, a3, a4] : List RedisBufSplit)[2]? = some a2 := rfl
  have e3 : ([a0, a1, a2, a3, a4] : List RedisBufSplit)[3]? = some a3 := rfl
  have e4 : ([a0, a1, a2, a3, a4] : List RedisBufSplit)[4]? = some a4 := rfl
  refine ⟨?_, ?_, ?_, ?_⟩
  · intro hpx
    rw [Parser.pcDispatch]
    simp only [e0, e1, e2, e3, e4, hcmd, hnum, hpx]
    rfl
  · intro hex
    rw [Parser.pcDispatch]
    simp only [e0, e1, e2, e3, e4, hcmd, hnum, hex]
    rfl
  · intro hpx hex
    rw [Parser.pcDispatch]
    simp only [e0, e1, e2, e3, e4, hcmd, hnum, if_neg hpx, if_neg hex]
    rfl
  · intro hrep
    obtain ⟨mhp, hmhp⟩ := Option.isSome_iff_exists.mp hrep
    rw [RedisServer.evalArray]
    simp only [e0, e1, e2, e4, hcmd, hnum, hmhp]
    rfl

/-- Witness for C7 (amended): a concrete `SET k v EX 10` over the buffer
`setkvEX10`, decoded with a ttl of 10 seconds (10000 ms). -/
theorem C7_set_expiry_options_witness :
    lower ((RedisBufSplit.String ⟨0, 3⟩).to_string (bytesOf "setkvEX10")) =
      bytesOf "set" ∧
    parseU64 ((RedisBufSplit.String ⟨7, 9⟩).to_string (bytesOf "setkvEX10")) = some 10 ∧
    Parser.pcDispatch (bytesOf "setkvEX10")
        [RedisBufSplit.String ⟨0, 3⟩, RedisBufSplit.String ⟨3, 4⟩,
          RedisBufSplit.String ⟨4, 5⟩, RedisBufSplit.String ⟨5, 7⟩,
          RedisBufSplit.String ⟨7, 9⟩] 47 =
      .ok ⟨.Set ((RedisBufSplit.String ⟨3, 4⟩).to_string (bytesOf "setkvEX10"))
        ((RedisBufSplit.String ⟨4, 5⟩).to_string (bytesOf "setkvEX10"))
        (some (1000 * 10)), 47⟩ :=
  ⟨by decide, by decide,
    (C7_set_expiry_options (bytesOf "setkvEX10") (RedisBufSplit.String ⟨0, 3⟩)
      (RedisBufSplit.String ⟨3, 4⟩) (RedisBufSplit.String ⟨4, 5⟩)
      (RedisBufSplit.String ⟨5, 7⟩) (RedisBufSplit.String ⟨7, 9⟩) 47 cfgReplica true 0
      st0 10 (by decide) (by decide)).2.1 (by decide)⟩

/-- C7 counterexample: evaluating `SET k v EX 10` on the store at instant 0
leaves key `k` with deadline 10 (milliseconds — `Duration::from_millis` is
applied to the option value no matter the option name), where the claim
requires `EX 10` to mean 10 seconds, i.e. deadline 10000. -/
theorem C7_ex_seconds_counterexample :
    (RedisServer.evaluate cfgReplica true 0
        (bytesOf "*5\r\n$3\r\nSET\r\n$1\r\nk\r\n$1\r\nv\r\n$2\r\nEX\r\n$2\r\n10\r\n") st0).map
      (fun r => r.state.db (bytesOf "k")) =
      some (some (RedisValue.String (bytesOf "v"), some 10)) ∧
    (10 : Nat) ≠ 10000 :=
  ⟨by rfl, by decide⟩

/-- C2 (amended): the handshake driver sends exactly three messages, in
order — `PING`, `REPLCONF listening-port <port>`, and `REPLCONF capa psync2`
(each encoded by `RedisValue::to_response` as a RESP array of **simple**
strings) — and then returns.  It never sends `PSYNC ? -1`, never reads a
FULLRESYNC reply or RDB payload, and no transition to streaming the master
connection into the command loop exists (after the handshake task completes,
`main` only starts the client accept loop). -/
theorem C2_handshake_sends_three (port : Nat) :
    handshake_master_ping port =
      [bytesOf "*1\r\n+PING\r\n",
       bytesOf "*3\r\n+REPLCONF\r\n+listening-port\r\n+" ++ natToDec port ++ crlf,
       bytesOf "*3\r\n+REPLCONF\r\n+capa\r\n+psync2\r\n"] := by
  have h1 : (RedisValue.Array [RedisValue.String (bytesOf "PING")]).to_response =
      bytesOf "*1\r\n+PING\r\n" := by rfl
  have h3 : (RedisValue.Array [RedisValue.String (bytesOf "REPLCONF"),
      RedisValue.String (bytesOf "capa"),
      RedisValue.String (bytesOf "psync2")]).to_response =
      bytesOf "*3\r\n+REPLCONF\r\n+capa\r\n+psync2\r\n" := by rfl
  have hbody : (RedisValue.Array [RedisValue.String (bytesOf "REPLCONF"),
      RedisValue.String (bytesOf "listening-port"),
      RedisValue.String (natToDec port)]).to_response =
      [42] ++ natToDec 3 ++ crlf ++ (([43] ++ bytesOf "REPLCONF" ++ crlf) ++
        (([43] ++ bytesOf "listening-port" ++ crlf) ++
          (([43] ++ natToDec port ++ crlf) ++ []))) := rfl
  have hpre : bytesOf "*3\r\n+REPLCONF\r\n+listening-port\r\n+" =
      [42] ++ natToDec 3 ++ crlf ++ ([43] ++ bytesOf "REPLCONF" ++ crlf) ++
        ([43] ++ bytesOf "listening-port" ++ crlf) ++ [43] := by decide
  have h2 : (RedisValue.Array [RedisValue.String (bytesOf "REPLCONF"),
      RedisValue.String (bytesOf "listening-port"),
      RedisValue.String (natToDec port)]).to_response =
      bytesOf "*3\r\n+REPLCONF\r\n+listening-port\r\n+" ++ natToDec port ++ crlf := by
    rw [hbody, hpre]
    simp [List.append_assoc]
  rw [show handshake_master_ping port =
    [(RedisValue.Array [RedisValue.String (bytesOf "PING")]).to_response,
     (RedisValue.Array [RedisValue.String (bytesOf "REPLCONF"),
       RedisValue.String (bytesOf "listening-port"),
       RedisValue.String (natToDec port)]).to_response,
     (RedisValue.Array [RedisValue.String (bytesOf "REPLCONF"),
       RedisValue.String (bytesOf "capa"),
       RedisValue.String (bytesOf "psync2")]).to_response] from rfl, h1, h2, h3]

/-- C2 counterexample: the claim requires the handshake to send PSYNC as its
fourth message; `handshake_master_ping` sends only three messages, so no
such sequence (with any continuation) is produced, at port 6380 in
particular. -/
theorem C2_no_psync_counterexample :
    ¬∃ t : List Buf, handshake_master_ping 6380 =
      [(RedisValue.Array [RedisValue.String (bytesOf "PING")]).to_response,
       (RedisValue.Array [RedisValue.String (bytesOf "REPLCONF"),
         RedisValue.String (bytesOf "listening-port"),
         RedisValue.String (natToDec 6380)]).to_response,
       (RedisValue.Array [RedisValue.String (bytesOf "REPLCONF"),
         RedisValue.String (bytesOf "capa"),
         RedisValue.String (bytesOf "psync2")]).to_response,
       (RedisValue.Array [RedisValue.String (bytesOf "PSYNC"),
         RedisValue.String (bytesOf "?"),
         RedisValue.String (bytesOf "-1")]).to_response] ++ t := by
  rintro ⟨t, h⟩
  have hlen := congrArg List.length h
  rw [show handshake_master_ping 6380 =
    [(RedisValue.Array [RedisValue.String (bytesOf "PING")]).to_response,
     (RedisValue.Array [RedisValue.String (bytesOf "REPLCONF"),
       RedisValue.String (bytesOf "listening-port"),
       RedisValue.String (natToDec 6380)]).to_response,
     (RedisValue.Array [RedisValue.String (bytesOf "REPLCONF"),
       RedisValue.String (bytesOf "capa"),
       RedisValue.String (bytesOf "psync2")]).to_response] from rfl] at hlen
  simp at hlen

/-- C3 (amended): the parse routines do not report a clean `Incomplete` on a
strict prefix of a valid frame.  For a buffer that ends inside the length
line (no CR after position `i`), `parse_int` — and hence `parse_bulk_string`
and `parse_array`, which call it — panics on the failed `token` `unwrap`;
`parse_bulk_string` with a complete length line but truncated payload
returns `Err(UnexpectedEnd)` (the routines are pure, so no bytes are
consumed on that path); and `parse_array` whose element-count line ends the
buffer panics on the out-of-bounds `src[pos]` of its first element. -/
theorem C3_incomplete_not_clean (src : Buf) (i b : Nat) (hb : src[i]? = some b) :
    ((b = 36 ∨ b = 58 ∨ b = 42) → (∀ x ∈ src.drop i, x ≠ 13) →
      Parser.parse_int src i = .panic)
    ∧ (b = 36 → ∀ j v, Parser.parse_int src i = .ok (j, v) →
      j + asUsize v > src.length →
      Parser.parse_bulk_string src i = .err .UnexpectedEnd)
    ∧ (b = 42 → ∀ j v, Parser.parse_int src i = .ok (j, v) →
      asUsize v ≠ 0 → src.length ≤ j →
      Parser.parse_array src i = .panic) := by
  refine ⟨?_, ?_, ?_⟩
  · intro h3 hnocr
    have hterm : tokenEnd src i = src.length := by
      rw [tokenEnd, crScan_no_cr (src.drop i) hnocr, List.length_drop]
      have : i < src.length := by
        by_contra hge
        rw [List.getElem?_eq_none (by omega)] at hb
        exact absurd hb (by simp)
      omega
    exact parse_int_noterm src i b hb h3 hterm
  · intro h36 j v hint hlong
    exact parse_bulk_long src i b j v hb h36 hint hlong
  · intro h42 j v hint hcnt hend
    obtain ⟨c, hc⟩ : ∃ c, asUsize v = c + 1 := ⟨asUsize v - 1, by omega⟩
    have hoob : src[j]? = none := List.getElem?_eq_none (by omega)
    exact parse_array_loop_panic src i b j v hb h42 hint
      (by rw [hc]; exact loop_oob src c j [] hoob)

/-- Witness for C3 (amended): the buffer `$3` (a strict prefix of the valid
frame `$3\r\nfoo\r\n` cut inside the length line) makes `parse_int` panic. -/
theorem C3_incomplete_not_clean_witness :
    (bytesOf "$3")[0]? = some 36 ∧ Parser.parse_int (bytesOf "$3") 0 = .panic :=
  ⟨by decide,
    (C3_incomplete_not_clean (bytesOf "$3") 0 36 (by decide)).1 (by decide) (by decide)⟩

/-- C3 counterexample: concrete strict prefixes of valid frames panic rather
than returning a clean incomplete outcome: the array prefix
`*2\r\n$3\r\nfoo\r\n` of the valid `*2\r\n$3\r\nfoo\r\n$3\r\nbar\r\n` (which
parses fine) panics, as do the integer prefix `:12` of `:12\r\n` and the
bulk prefix `$3` of `$3\r\nfoo\r\n`. -/
theorem C3_prefix_panics_counterexample :
    Parser.parse_array (bytesOf "*2\r\n$3\r\nfoo\r\n") 0 = .panic ∧
    Parser.parse_array (bytesOf "*2\r\n$3\r\nfoo\r\n$3\r\nbar\r\n") 0 =
      .ok (22, .Array [.String ⟨8, 11⟩, .String ⟨17, 20⟩]) ∧
    Parser.parse_int (bytesOf ":12") 0 = .panic ∧
    Parser.parse_bulk_string (bytesOf "$3") 0 = .panic :=
  ⟨by rfl, by rfl, by rfl, by rfl⟩

theorem natToDec_no_cr (n : Nat) : ∀ b ∈ natToDec n, b ≠ 13 := by
  intro b hb
  have hall := natToDecF_digits n n
  rw [List.all_eq_true] at hall
  have := hall b hb
  simp [isDigitB] at this
  omega

theorem intToDec_no_cr (i : Int) : ∀ b ∈ intToDec i, b ≠ 13 := by
  intro b hb
  rw [intToDec] at hb
  by_cases hneg : i < 0
  · rw [if_pos hneg] at hb
    rcases List.mem_cons.mp hb with h45 | hmem
    · omega
    · exact natToDec_no_cr _ b hmem
  · rw [if_neg hneg] at hb
    exact natToDec_no_cr _ b hb

theorem parseI64_intToDec (i : Int) (hlo : -(2 ^ 63 : Int) ≤ i)
    (hhi : i ≤ 2 ^ 63 - 1) : parseI64 (intToDec i) = some i := by
  by_cases hneg : i < 0
  · have hbound : (-i).toNat ≤ 2 ^ 63 := by omega
    have hval : -(Int.ofNat ((-i).toNat)) = i := by
      simp only [Int.ofNat_eq_coe]
      omega
    rw [intToDec, if_pos hneg, parseI64]
    simp only [if_neg (by omega : ¬(45 : Nat) = 43), if_pos rfl, parseDigits_natToDec,
      Option.some_bind, if_pos hbound, hval]
    simp
  · have hval : Int.ofNat i.toNat = i := by
      simp only [Int.ofNat_eq_coe]
      omega
    rw [intToDec, if_neg hneg,
      parseI64_natToDec i.toNat (by simp only [i64max]; omega), hval]

theorem sliceB_full (content : Buf) : sliceB content 0 content.length = content := by
  simp [sliceB]

/-- The byte form of the bulk-string encoding of `content` viewed through the
split `⟨0, content.length⟩`. -/
theorem to_resp_string_shape (content : Buf) :
    (RedisBufSplit.String ⟨0, content.length⟩).to_resp content =
      [36] ++ natToDec content.length ++ crlf ++ content ++ crlf := by
  rw [show (RedisBufSplit.String ⟨0, content.length⟩).to_resp content =
    [36] ++ natToDec (content.length - 0) ++ crlf ++ sliceB content 0 content.length ++ crlf
    from rfl, sliceB_full]
  simp

theorem bulk_roundtrip_core (content : Buf) (hlen : content.length < 2 ^ 63) :
    ∃ ws we,
      Parser.parse_bulk_string ((RedisBufSplit.String ⟨0, content.length⟩).to_resp content) 0 =
        .ok (((RedisBufSplit.String ⟨0, content.length⟩).to_resp content).length,
          .String ⟨ws, we⟩)
      ∧ sliceB ((RedisBufSplit.String ⟨0, content.length⟩).to_resp content) ws we = content := by
  set n := content.length with hn
  set D := (natToDec n).length with hD
  set E := (RedisBufSplit.String ⟨0, n⟩).to_resp content with hE
  have henc : E = [36] ++ natToDec n ++ crlf ++ content ++ crlf := to_resp_string_shape content
  have hshape : E = 36 :: (natToDec n ++ 13 :: (10 :: (content ++ [13, 10]))) := by
    rw [henc]
    simp [crlf]
  have hlenE : E.length = D + n + 5 := by
    rw [henc]
    simp [crlf]
    omega
  have hE0 : E[0]? = some 36 := by
    rw [hshape]
    exact List.getElem?_cons_zero
  have htok : tokenEnd E 0 = D + 1 := by
    rw [tokenEnd, List.drop_zero, hshape, crScan, if_neg (by omega : ¬(36 : Nat) = 13),
      crScan_append_cr (natToDec n) _ (natToDec_no_cr n)]
    omega
  have hterm : tokenEnd E 0 ≠ E.length := by
    rw [htok, hlenE]
    omega
  have hslice1 : sliceB E (0 + 1) (tokenEnd E 0) = natToDec n := by
    rw [htok, sliceB, hshape, show D + 1 = (natToDec n).length + 1 from by rw [hD],
      List.take_succ_cons, List.take_left]
    rfl
  have hpok : parseI64 (sliceB E (0 + 1) (tokenEnd E 0)) = some (Int.ofNat n) := by
    rw [hslice1]
    exact parseI64_natToDec n (by simp only [i64max]; omega)
  have hint : Parser.parse_int E 0 = .ok (tokenEnd E 0 + 2, Int.ofNat n) :=
    parse_int_ok E 0 36 (Int.ofNat n) hE0 (by omega) hterm hpok
  rw [htok] at hint
  have hus : asUsize (Int.ofNat n) = n := asUsize_ofNat n (by omega)
  have hfit : ¬(D + 1 + 2 + asUsize (Int.ofNat n) > E.length) := by
    rw [hus, hlenE]
    omega
  have hbulk := parse_bulk_ok E 0 36 (D + 1 + 2) (Int.ofNat n) hE0 rfl
    (by rw [hint]) hfit
  rw [hus] at hbulk
  refine ⟨D + 1 + 2, D + 1 + 2 + n, ?_, ?_⟩
  · have hlen2 : E.length = D + 1 + 2 + n + 2 := by rw [hlenE]; omega
    rw [hlen2]
    exact hbulk
  · have hp : E = ([36] ++ natToDec n ++ crlf) ++ (content ++ crlf) := by
      rw [henc]
      simp [List.append_assoc]
    have hplen : ([36] ++ natToDec n ++ crlf).length = D + 3 := by
      simp [crlf]
    have h1 := sliceB_shift ([36] ++ natToDec n ++ crlf) (content ++ crlf) 0 n
    rw [hplen] at h1
    rw [hp]
    rw [show D + 1 + 2 = D + 3 + 0 from by omega]
    rw [show D + 3 + 0 + n = D + 3 + n from by omega]
    rw [h1]
    rw [sliceB, List.drop_zero]
    rw [show n = content.length from hn]
    exact List.take_left content crlf

theorem int_roundtrip_core (i : Int) (hlo : -(2 ^ 63 : Int) ≤ i)
    (hhi : i ≤ 2 ^ 63 - 1) :
    Parser.parse_int ((RedisBufSplit.Int i).to_resp []) 0 =
      .ok (((RedisBufSplit.Int i).to_resp []).length, i) := by
  set Di := (intToDec i).length with hDi
  set E := (RedisBufSplit.Int i).to_resp [] with hE
  have henc : E = [58] ++ intToDec i ++ crlf := rfl
  have hshape : E = 58 :: (intToDec i ++ 13 :: [10]) := by
    rw [henc]
    simp [crlf]
  have hlenE : E.length = Di + 3 := by
    rw [henc]
    simp [crlf]
  have hE0 : E[0]? = some 58 := by
    rw [hshape]
    exact List.getElem?_cons_zero
  have htok : tokenEnd E 0 = Di + 1 := by
    rw [tokenEnd, List.drop_zero, hshape, crScan, if_neg (by omega : ¬(58 : Nat) = 13),
      crScan_append_cr (intToDec i) _ (intToDec_no_cr i)]
    omega
  have hterm : tokenEnd E 0 ≠ E.length := by
    rw [htok, hlenE]
    omega
  have hslice1 : sliceB E (0 + 1) (tokenEnd E 0) = intToDec i := by
    rw [htok, sliceB, hshape, show Di + 1 = (intToDec i).length + 1 from by rw [hDi],
      List.take_succ_cons, List.take_left]
    rfl
  have hpok : parseI64 (sliceB E (0 + 1) (tokenEnd E 0)) = some i := by
    rw [hslice1]
    exact parseI64_intToDec i hlo hhi
  have := parse_int_ok E 0 58 i hE0 (by omega) hterm hpok
  rw [this, htok, hlenE]

/-- C4 (amended): the encoder `RedisBufSplit::to_resp` is inverted by the
parse routines — consuming exactly the encoded bytes and recovering the same
denoted value — for `Int` frames within the `i64` range (via `parse_int`),
for bulk strings (via `parse_bulk_string`), and for arrays of **at most one**
bulk-string element (via `parse_array`).  The claim's full statement fails:
for arrays of two or more elements the encoder inserts a stray `\r\n`
separator that the decoder cannot parse (see
`C4_roundtrip_counterexample`); nested arrays and non-bulk elements hit the
decoder's `unimplemented!`, and `Error` frames have no decoder at all. -/
theorem C4_codec_roundtrip (content : Buf) (i : Int) (hlen : content.length < 2 ^ 63)
    (hlo : -(2 ^ 63 : Int) ≤ i) (hhi : i ≤ 2 ^ 63 - 1) :
    (Parser.parse_int ((RedisBufSplit.Int i).to_resp []) 0 =
      .ok (((RedisBufSplit.Int i).to_resp []).length, i))
    ∧ (∃ ws we,
      Parser.parse_bulk_string ((RedisBufSplit.String ⟨0, content.length⟩).to_resp content) 0 =
        .ok (((RedisBufSplit.String ⟨0, content.length⟩).to_resp content).length,
          .String ⟨ws, we⟩)
      ∧ (RedisBufSplit.String ⟨ws, we⟩).to_string
          ((RedisBufSplit.String ⟨0, content.length⟩).to_resp content) = content)
    ∧ (Parser.parse_array ((RedisBufSplit.Array []).to_resp []) 0 =
      .ok (((RedisBufSplit.Array []).to_resp []).length, .Array []))
    ∧ (∃ ws we,
      Parser.parse_array ((RedisBufSplit.Array [.String ⟨0, content.length⟩]).to_resp content) 0 =
        .ok (((RedisBufSplit.Array [.String ⟨0, content.length⟩]).to_resp content).length,
          .Array [.String ⟨ws, we⟩])
      ∧ (RedisBufSplit.String ⟨ws, we⟩).to_string
          ((RedisBufSplit.Array [.String ⟨0, content.length⟩]).to_resp content) = content) := by
  refine ⟨int_roundtrip_core i hlo hhi, bulk_roundtrip_core content hlen, by rfl, ?_⟩
  obtain ⟨ws, we, hparse, hsl⟩ := bulk_roundtrip_core content hlen
  set B := (RedisBufSplit.String ⟨0, content.length⟩).to_resp content with hB
  set E2 := (RedisBufSplit.Array [RedisBufSplit.String ⟨0, content.length⟩]).to_resp content
    with hE2
  have henc2 : E2 = [42, 49, 13, 10] ++ B := by
    rw [hE2, hB]
    rfl
  have hlen2 : E2.length = 4 + B.length := by
    rw [henc2]
    simp
    omega
  have hE20 : E2[0]? = some 42 := by
    rw [henc2]
    exact List.getElem?_cons_zero
  have htok2 : tokenEnd E2 0 = 2 := by
    rw [tokenEnd, List.drop_zero, henc2]
    rw [show ([42, 49, 13, 10] : Buf) ++ B = 42 :: (49 :: (13 :: (10 :: B))) from rfl]
    rw [crScan, if_neg (by omega : ¬(42 : Nat) = 13), crScan,
      if_neg (by omega : ¬(49 : Nat) = 13), crScan, if_pos rfl]
  have hterm2 : tokenEnd E2 0 ≠ E2.length := by
    rw [htok2, hlen2]
    omega
  have hslice2 : sliceB E2 (0 + 1) (tokenEnd E2 0) = [49] := by
    rw [htok2, sliceB, henc2]
    rw [show ([42, 49, 13, 10] : Buf) ++ B = 42 :: (49 :: (13 :: (10 :: B))) from rfl]
    rw [show (42 :: (49 :: (13 :: (10 :: B)))).take 2 = [42, 49] from rfl]
    rfl
  have hpok2 : parseI64 (sliceB E2 (0 + 1) (tokenEnd E2 0)) = some (Int.ofNat 1) := by
    rw [hslice2]
    decide
  have hint2 : Parser.parse_int E2 0 = .ok (4, Int.ofNat 1) := by
    have := parse_int_ok E2 0 42 (Int.ofNat 1) hE20 (by omega) hterm2 hpok2
    rw [this, htok2]
  have hB0 : B[0]? = some 36 := by
    rw [hB, to_resp_string_shape]
    rw [show ([36] : Buf) ++ natToDec content.length ++ crlf ++ content ++ crlf =
      36 :: (natToDec content.length ++ crlf ++ content ++ crlf) from by simp]
    exact List.getElem?_cons_zero
  have hE24 : E2[4]? = some 36 := by
    rw [henc2]
    rw [show (4 : Nat) = List.length ([42, 49, 13, 10] : Buf) + 0 from rfl]
    rw [getElem?_shift]
    exact hB0
  obtain ⟨ws2, we2, hws2, hshift⟩ := parse_bulk_shift_ok [42, 49, 13, 10] B 0
    B.length (.String ⟨ws, we⟩) hparse
  have hinj : ws = ws2 ∧ we = we2 := by
    simpa using hws2
  rw [← hinj.1, ← hinj.2] at hshift
  have hloop : Parser.parseArrayLoop E2 1 4 [] =
      .ok (4 + B.length, [.String ⟨4 + ws, 4 + we⟩]) := by
    rw [show (1 : Nat) = 0 + 1 from rfl]
    rw [loop_step E2 0 4 (4 + B.length) 36 [] (.String ⟨4 + ws, 4 + we⟩) hE24 rfl ?hbulk]
    · rw [loop_zero]
      simp
    case hbulk =>
      rw [henc2]
      rw [show (4 : Nat) = List.length ([42, 49, 13, 10] : Buf) + 0 from rfl]
      rw [show List.length ([42, 49, 13, 10] : Buf) + 0 + B.length =
        List.length ([42, 49, 13, 10] : Buf) + B.length from by simp]
      rw [show (List.length ([42, 49, 13, 10] : Buf) + 0 + ws : Nat) =
        List.length ([42, 49, 13, 10] : Buf) + ws from by simp]
      rw [show (List.length ([42, 49, 13, 10] : Buf) + 0 + we : Nat) =
        List.length ([42, 49, 13, 10] : Buf) + we from by simp]
      exact hshift
  have hus1 : asUsize (Int.ofNat 1) = 1 := by decide
  have harr := parse_array_loop_ok E2 0 42 4 (4 + B.length) (Int.ofNat 1)
    [.String ⟨4 + ws, 4 + we⟩] hE20 rfl hint2 (by rw [hus1]; exact hloop)
  refine ⟨4 + ws, 4 + we, ?_, ?_⟩
  · rw [harr, hlen2]
  · rw [show (RedisBufSplit.String ⟨4 + ws, 4 + we⟩).to_string E2 =
      sliceB E2 (4 + ws) (4 + we) from rfl]
    rw [henc2]
    rw [show (4 : Nat) + ws = List.length ([42, 49, 13, 10] : Buf) + ws from rfl]
    rw [show (4 : Nat) + we = List.length ([42, 49, 13, 10] : Buf) + we from rfl]
    rw [sliceB_shift]
    exact hsl

/-- Witness for C4 (amended): the Int case at `i = 5` (encoding `:5\r\n`),
with hypotheses discharged at `content = "a"`. -/
theorem C4_codec_roundtrip_witness :
    (bytesOf "a").length < 2 ^ 63 ∧
    Parser.parse_int ((RedisBufSplit.Int 5).to_resp []) 0 =
      .ok (((RedisBufSplit.Int 5).to_resp []).length, 5) :=
  ⟨by decide,
    (C4_codec_roundtrip (bytesOf "a") 5 (by decide) (by decide) (by decide)).1⟩

/-- C4 counterexample: for the two-element array value
`[BulkString "a", BulkString "b"]` (over source buffer `ab`, containing no
nulls), the encoder emits `*2\r\n$1\r\na\r\n\r\n$1\r\nb\r\n` — note the
stray `\r\n` between the elements — and decoding those bytes with
`parse_array` panics (`unimplemented!` on the `\r` byte where the second
element should start) instead of yielding the value back. -/
theorem C4_roundtrip_counterexample :
    (RedisBufSplit.Array [.String ⟨0, 1⟩, .String ⟨1, 2⟩]).to_resp (bytesOf "ab") =
      bytesOf "*2\r\n$1\r\na\r\n\r\n$1\r\nb\r\n" ∧
    Parser.parse_array (bytesOf "*2\r\n$1\r\na\r\n\r\n$1\r\nb\r\n") 0 = .panic :=
  ⟨by decide, by rfl⟩
